import Mathlib

/-!
# Verification of the Read_Parsing_Analysis transaction codecs

Shallow embedding of the four transaction codecs (Binary, CSV, Text, MT940)
of the `parser_lib` Rust crate, together with theorems settling the frozen
claims about the crate's specification.

Modelling conventions:
* Rust `String`/`&str` values are `List Char`; byte streams are `List Nat`
  (each byte a `Nat < 256`).
* Machine integers are `Nat`/`Int`; wrapping arithmetic takes `% 2^64`
  explicitly where the source wraps.
* Fallible Rust functions returning `Result<_, ParserError>` become
  `Outcome _`; the extra `panicked` constructor records a Rust panic
  (reachable in this crate through an out-of-order string slice), which is
  outside `Result` in the source.
* `HashMap<String, String>` becomes an association list; the codecs only
  use `insert` / `get` / `contains_key` / `is_empty` / `clear`, none of
  which depend on iteration order (the one exception, the MT940 fallback
  hash over `format!("{:?}", fields)`, is noted at its definition).
-/

set_option maxRecDepth 10000

namespace RPA

/-- The `std::io::ErrorKind` values the codecs distinguish: `parse_records`
for the binary format treats `UnexpectedEof` specially (src/binary_format.rs
line 53); every other kind is lumped together. -/
inductive IoKind where
  | unexpectedEof
  | otherKind
deriving DecidableEq, Repr

/-- `ParserError` from src/error.rs: `Io`, `Parse(String)`,
`Validation(String)`, `UnsupportedFormat`, `Conversion(String)`. The `Io`
payload keeps only the error kind, the single attribute of an
`std::io::Error` the library inspects. -/
inductive ParserError where
  | Io (k : IoKind)
  | Parse (msg : String)
  | Validation (msg : String)
  | UnsupportedFormat
  | Conversion (msg : String)
deriving DecidableEq, Repr

/-- Result of running a Rust function that returns
`Result<α, ParserError>`: success, an `Err`, or a panic (the latter is not
a `Result` value in Rust; it aborts the computation). -/
inductive Outcome (α : Type) where
  | ok (a : α)
  | fail (e : ParserError)
  | panicked
deriving DecidableEq, Repr

namespace Outcome

def bind {α β : Type} : Outcome α → (α → Outcome β) → Outcome β
  | ok a, f => f a
  | fail e, _ => fail e
  | panicked, _ => panicked

def map {α β : Type} (f : α → β) : Outcome α → Outcome β
  | ok a => ok (f a)
  | fail e => fail e
  | panicked => panicked

instance : Monad Outcome where
  pure := ok
  bind := bind
  map := map

@[simp] theorem bind_ok {α β : Type} (a : α) (f : α → Outcome β) :
    bind (ok a) f = f a := rfl

@[simp] theorem bind_fail {α β : Type} (e : ParserError) (f : α → Outcome β) :
    bind (fail e) f = fail e := rfl

@[simp] theorem bind_panicked {α β : Type} (f : α → Outcome β) :
    bind panicked f = panicked := rfl

@[simp] theorem monad_bind_eq {α β : Type} (x : Outcome α) (f : α → Outcome β) :
    (x >>= f) = bind x f := rfl

@[simp] theorem map_ok {α β : Type} (f : α → β) (a : α) :
    map f (ok a) = ok (f a) := rfl

@[simp] theorem map_fail {α β : Type} (f : α → β) (e : ParserError) :
    map f (fail e : Outcome α) = fail e := rfl

@[simp] theorem map_panicked {α β : Type} (f : α → β) :
    map f (panicked : Outcome α) = panicked := rfl

end Outcome

/-! ## Rust string primitives -/

/-- Rust `char::is_whitespace`: the Unicode `White_Space` property. -/
def rustIsWhitespace (c : Char) : Bool :=
  c.toNat = 0x9 || c.toNat = 0xA || c.toNat = 0xB || c.toNat = 0xC ||
  c.toNat = 0xD || c.toNat = 0x20 || c.toNat = 0x85 || c.toNat = 0xA0 ||
  c.toNat = 0x1680 || (0x2000 ≤ c.toNat && c.toNat ≤ 0x200A) ||
  c.toNat = 0x2028 || c.toNat = 0x2029 || c.toNat = 0x202F ||
  c.toNat = 0x205F || c.toNat = 0x3000

/-- Rust `str::trim_start`. -/
def rustTrimStart (s : List Char) : List Char :=
  s.dropWhile rustIsWhitespace

/-- Rust `str::trim_end`. -/
def rustTrimEnd (s : List Char) : List Char :=
  (s.reverse.dropWhile rustIsWhitespace).reverse

/-- Rust `str::trim`. -/
def rustTrim (s : List Char) : List Char :=
  rustTrimEnd (rustTrimStart s)

/-- One line of Rust `str::lines`: after splitting at `'\n'`, a single
carriage return immediately before the split point is removed. -/
def stripTrailingCR (s : List Char) : List Char :=
  match s.getLast? with
  | some '\r' => s.dropLast
  | _ => s

/-- Split a character list at every `'\n'`, keeping the (possibly empty)
segment after the last `'\n'`. Never returns `[]`. -/
def splitOnNl : List Char → List (List Char)
  | [] => [[]]
  | c :: rest =>
    if c = '\n' then [] :: splitOnNl rest
    else
      match splitOnNl rest with
      | s :: ss => (c :: s) :: ss
      | [] => [[c]]

/-- Post-processing of `splitOnNl` that yields Rust `str::lines`: every
`'\n'`-terminated segment loses one trailing `'\r'`; the final,
unterminated segment is kept verbatim, or dropped when empty. -/
def linesOfSegs : List (List Char) → List (List Char)
  | [] => []
  | [last] => if last = [] then [] else [last]
  | seg :: rest => stripTrailingCR seg :: linesOfSegs rest

/-- Rust `str::lines`. -/
def rustLines (s : List Char) : List (List Char) :=
  linesOfSegs (splitOnNl s)

@[simp] theorem rustLines_nil : rustLines [] = [] := rfl

theorem splitOnNl_ne_nil (s : List Char) : splitOnNl s ≠ [] := by
  cases s with
  | nil => simp [splitOnNl]
  | cons c rest =>
    simp only [splitOnNl]
    split
    · simp
    · split
      · simp
      · simp

theorem splitOnNl_append_nl (l rest : List Char) (h : '\n' ∉ l) :
    splitOnNl (l ++ '\n' :: rest) = l :: splitOnNl rest := by
  induction l with
  | nil => simp [splitOnNl]
  | cons c cs ih =>
    have hc : c ≠ '\n' := fun hc => h (hc ▸ List.mem_cons_self c cs)
    have hcs : '\n' ∉ cs := fun hm => h (List.mem_cons_of_mem c hm)
    simp only [List.cons_append, splitOnNl, if_neg hc]
    rw [show cs.append ('\n' :: rest) = cs ++ '\n' :: rest from rfl, ih hcs]

/-- Peeling one `'\n'`-terminated line off the front of an input. -/
theorem rustLines_append_nl (l rest : List Char) (h : '\n' ∉ l) :
    rustLines (l ++ '\n' :: rest) =
      stripTrailingCR l :: rustLines rest := by
  unfold rustLines
  rw [splitOnNl_append_nl l rest h]
  rcases hs : splitOnNl rest with _ | ⟨s, ss⟩
  · exact absurd hs (splitOnNl_ne_nil rest)
  · simp [linesOfSegs]

/-- A line with no `'\r'` at its end passes through `stripTrailingCR`. -/
theorem stripTrailingCR_eq_self (l : List Char) (h : l.getLast? ≠ some '\r') :
    stripTrailingCR l = l := by
  unfold stripTrailingCR
  rcases hl : l.getLast? with _ | c
  · simp
  · rw [hl] at h
    have : c ≠ '\r' := fun hc => h (by rw [hc])
    cases hcc : c
    simp_all

/-! ## Decimal integers (Rust `Display` / `FromStr`) -/

def isAsciiDigit (c : Char) : Bool := '0' ≤ c && c ≤ '9'

def digitVal (c : Char) : Nat := c.toNat - 48

/-- Digit-by-digit construction of a decimal rendering; the fuel only
bounds the recursion and `n` itself is always enough. -/
def natToCharsAux : Nat → Nat → List Char
  | 0, _ => []
  | fuel + 1, n =>
    if n = 0 then []
    else natToCharsAux fuel (n / 10) ++ [Nat.digitChar (n % 10)]

/-- Decimal rendering of a `u64` value (Rust `Display` for `u64`). -/
def natToChars (n : Nat) : List Char :=
  if n = 0 then ['0'] else natToCharsAux n n

/-- Decimal rendering of an `i64` value (Rust `Display` for `i64`). -/
def intToChars (i : Int) : List Char :=
  if i < 0 then '-' :: natToChars i.natAbs else natToChars i.toNat

/-- Parse an unsigned run of decimal digits: `none` unless the input is
nonempty and consists of ASCII digits only. -/
def parseDigits (s : List Char) : Option Nat :=
  if s.isEmpty then none
  else if s.all isAsciiDigit then
    some (s.foldl (fun acc c => acc * 10 + digitVal c) 0)
  else none

/-- Rust `u64::from_str`: optional leading `'+'`, digits, overflow is an
error. -/
def parseU64 (s : List Char) : Option Nat :=
  let t := if s.head? = some '+' then s.tail else s
  match parseDigits t with
  | some n => if n < 2 ^ 64 then some n else none
  | none => none

/-- Rust `i64::from_str`: optional sign, digits, overflow is an error. -/
def parseI64 (s : List Char) : Option Int :=
  if s.head? = some '-' then
    match parseDigits s.tail with
    | some n => if n ≤ 2 ^ 63 then some (-(n : Int)) else none
    | none => none
  else
    let t := if s.head? = some '+' then s.tail else s
    match parseDigits t with
    | some n => if n < 2 ^ 63 then some (n : Int) else none
    | none => none

theorem digitChar_isAsciiDigit {d : Nat} (h : d < 10) :
    isAsciiDigit (Nat.digitChar d) = true := by
  interval_cases d <;> decide

theorem digitVal_digitChar {d : Nat} (h : d < 10) :
    digitVal (Nat.digitChar d) = d := by
  interval_cases d <;> decide

theorem natToCharsAux_all_digit :
    ∀ (fuel n : Nat), ∀ c ∈ natToCharsAux fuel n, isAsciiDigit c = true := by
  intro fuel
  induction fuel with
  | zero => intro n c hc; simp [natToCharsAux] at hc
  | succ fuel ih =>
    intro n c hc
    unfold natToCharsAux at hc
    split at hc
    · simp at hc
    · rcases List.mem_append.mp hc with hc | hc
      · exact ih (n / 10) c hc
      · simp at hc
        rw [hc]
        exact digitChar_isAsciiDigit (Nat.mod_lt n (by norm_num))

theorem natToChars_all_digit (n : Nat) :
    ∀ c ∈ natToChars n, isAsciiDigit c = true := by
  intro c hc
  unfold natToChars at hc
  split at hc
  · simp at hc
    rw [hc]; decide
  · exact natToCharsAux_all_digit n n c hc

theorem natToCharsAux_ne_nil {fuel n : Nat} (h0 : n ≠ 0) (hf : n ≤ fuel) :
    natToCharsAux fuel n ≠ [] := by
  rcases fuel with _ | fuel
  · omega
  · unfold natToCharsAux
    rw [if_neg h0]
    simp

theorem natToChars_ne_nil (n : Nat) : natToChars n ≠ [] := by
  unfold natToChars
  split
  · simp
  · exact natToCharsAux_ne_nil (by assumption) (le_refl n)

theorem isAsciiDigit_toNat {c : Char} (h : isAsciiDigit c = true) :
    48 ≤ c.toNat ∧ c.toNat ≤ 57 := by
  simp only [isAsciiDigit, Bool.and_eq_true, decide_eq_true_eq] at h
  obtain ⟨h1, h2⟩ := h
  exact ⟨h1, h2⟩

theorem natToCharsAux_val :
    ∀ (fuel n : Nat), n ≤ fuel →
      (natToCharsAux fuel n).foldl (fun acc c => acc * 10 + digitVal c) 0 =
        n := by
  intro fuel
  induction fuel with
  | zero => intro n hn; interval_cases n; rfl
  | succ fuel ih =>
    intro n hn
    unfold natToCharsAux
    split
    · subst n; rfl
    · rw [List.foldl_append]
      have hdiv : n / 10 ≤ fuel := by omega
      rw [ih (n / 10) hdiv]
      simp only [List.foldl_cons, List.foldl_nil]
      rw [digitVal_digitChar (Nat.mod_lt n (by norm_num))]
      omega

theorem parseDigits_natToChars (n : Nat) :
    parseDigits (natToChars n) = some n := by
  unfold parseDigits
  rw [if_neg (by simp [natToChars_ne_nil n])]
  rw [if_pos (by simpa [List.all_eq_true] using natToChars_all_digit n)]
  congr 1
  unfold natToChars
  split
  · simp [digitVal, *]
  · exact natToCharsAux_val n n (le_refl n)

theorem natToChars_head_digit (n : Nat) :
    ∃ c cst, natToChars n = c :: cst ∧ isAsciiDigit c = true := by
  rcases h : natToChars n with _ | ⟨c, cst⟩
  · exact absurd h (natToChars_ne_nil n)
  · exact ⟨c, cst, rfl, natToChars_all_digit n c (h ▸ List.mem_cons_self c cst)⟩

theorem parseU64_natToChars {n : Nat} (h : n < 2 ^ 64) :
    parseU64 (natToChars n) = some n := by
  obtain ⟨c, cs, hc, hdig⟩ := natToChars_head_digit n
  have h48 := isAsciiDigit_toNat hdig
  have hne : c ≠ '+' := by
    intro hc'
    rw [hc'] at h48
    simp at h48
  unfold parseU64
  rw [hc, show (c :: cs).head? = some c from rfl]
  rw [if_neg (by simp [hne]), ← hc]
  simp only [parseDigits_natToChars, if_pos h]

theorem parseI64_intToChars {a : Int} (hlo : -(2 ^ 63) ≤ a) (hhi : a < 2 ^ 63) :
    parseI64 (intToChars a) = some a := by
  by_cases hneg : a < 0
  · have : intToChars a = '-' :: natToChars a.natAbs := if_pos hneg
    unfold parseI64
    rw [this, show ('-' :: natToChars a.natAbs).head? = some '-' from rfl,
      if_pos rfl, show ('-' :: natToChars a.natAbs).tail = natToChars a.natAbs
        from rfl]
    have hle : a.natAbs ≤ 2 ^ 63 := by omega
    simp only [parseDigits_natToChars, if_pos hle]
    congr 1
    omega
  · have : intToChars a = natToChars a.toNat := if_neg hneg
    obtain ⟨c, cs, hc, hdig⟩ := natToChars_head_digit a.toNat
    have h48 := isAsciiDigit_toNat hdig
    have hm : c ≠ '-' := by
      intro hc'; rw [hc'] at h48; simp at h48
    have hp : c ≠ '+' := by
      intro hc'; rw [hc'] at h48; simp at h48
    unfold parseI64
    rw [this, hc, show (c :: cs).head? = some c from rfl,
      if_neg (by simp [hm]), if_neg (by simp [hp]), ← hc]
    have hlt : a.toNat < 2 ^ 63 := by omega
    simp only [parseDigits_natToChars, if_pos hlt]
    congr 1
    omega

/-! ## UTF-8 (Rust `String` byte representation) -/

theorem char_toNat_ofNat (n : Nat) (h : n.isValidChar) :
    (Char.ofNat n).toNat = n := by
  unfold Char.ofNat
  rw [dif_pos h]
  unfold Char.ofNatAux Char.toNat
  show (UInt32.ofNat' n _).toNat = n
  unfold UInt32.ofNat'
  simp [UInt32.toNat]

theorem char_ofNat_toNat (c : Char) : Char.ofNat c.toNat = c := by
  apply Char.ext
  apply UInt32.ext
  show (Char.ofNat c.toNat).val.toNat = c.val.toNat
  exact char_toNat_ofNat c.toNat c.valid

/-- UTF-8 bytes of one Unicode scalar value. -/
def utf8EncodeChar (c : Char) : List Nat :=
  let n := c.toNat
  if n < 0x80 then [n]
  else if n < 0x800 then [0xC0 + n / 64, 0x80 + n % 64]
  else if n < 0x10000 then
    [0xE0 + n / 4096, 0x80 + n / 64 % 64, 0x80 + n % 64]
  else
    [0xF0 + n / 262144, 0x80 + n / 4096 % 64, 0x80 + n / 64 % 64,
      0x80 + n % 64]

/-- The bytes Rust's `String::as_bytes` exposes for a string. -/
def utf8Encode (s : List Char) : List Nat :=
  (s.map utf8EncodeChar).flatten

/-- Rust `str::len`: the byte length of a string. -/
def utf8Len (s : List Char) : Nat :=
  (utf8Encode s).length

/-- One step of strict UTF-8 decoding (Rust `String::from_utf8`): decode
the first scalar value, rejecting truncated sequences, bad continuation
bytes, overlong encodings, surrogates, and out-of-range values. -/
def utf8DecodeChar : List Nat → Option (Char × List Nat)
  | [] => none
  | b0 :: rest =>
    if b0 < 0x80 then some (Char.ofNat b0, rest)
    else if b0 < 0xC2 then none
    else if b0 < 0xE0 then
      if rest.length < 1 then none
      else
        let b1 := rest.getD 0 0
        if 0x80 ≤ b1 ∧ b1 < 0xC0 then
          some (Char.ofNat ((b0 - 0xC0) * 64 + (b1 - 0x80)), rest.drop 1)
        else none
    else if b0 < 0xF0 then
      if rest.length < 2 then none
      else
        let b1 := rest.getD 0 0
        let b2 := rest.getD 1 0
        if (0x80 ≤ b1 ∧ b1 < 0xC0) ∧ (0x80 ≤ b2 ∧ b2 < 0xC0) then
          let n := (b0 - 0xE0) * 4096 + (b1 - 0x80) * 64 + (b2 - 0x80)
          if 0x800 ≤ n ∧ (n < 0xD800 ∨ 0xE000 ≤ n) then
            some (Char.ofNat n, rest.drop 2)
          else none
        else none
    else if b0 < 0xF5 then
      if rest.length < 3 then none
      else
        let b1 := rest.getD 0 0
        let b2 := rest.getD 1 0
        let b3 := rest.getD 2 0
        if (0x80 ≤ b1 ∧ b1 < 0xC0) ∧ (0x80 ≤ b2 ∧ b2 < 0xC0) ∧
            (0x80 ≤ b3 ∧ b3 < 0xC0) then
          let n := (b0 - 0xF0) * 262144 + (b1 - 0x80) * 4096 +
            (b2 - 0x80) * 64 + (b3 - 0x80)
          if 0x10000 ≤ n ∧ n < 0x110000 then
            some (Char.ofNat n, rest.drop 3)
          else none
        else none
    else none

theorem utf8DecodeChar_consumes {bs : List Nat} {c : Char} {rest : List Nat}
    (h : utf8DecodeChar bs = some (c, rest)) : rest.length < bs.length := by
  rcases bs with _ | ⟨b0, tl⟩
  · exact absurd h (by simp [utf8DecodeChar])
  · simp only [utf8DecodeChar] at h
    split at h
    · injection h with h'
      injection h' with h1 h2
      simp [← h2]
    · split at h
      · exact absurd h (by simp)
      · split at h
        · split at h
          · exact absurd h (by simp)
          · split at h
            · injection h with h'
              injection h' with h1 h2
              simp only [← h2, List.length_cons, List.length_drop]
              omega
            · exact absurd h (by simp)
        · split at h
          · split at h
            · exact absurd h (by simp)
            · split at h
              · split at h
                · injection h with h'
                  injection h' with h1 h2
                  simp only [← h2, List.length_cons, List.length_drop]
                  omega
                · exact absurd h (by simp)
              · exact absurd h (by simp)
          · split at h
            · split at h
              · exact absurd h (by simp)
              · split at h
                · split at h
                  · injection h with h'
                    injection h' with h1 h2
                    simp only [← h2, List.length_cons, List.length_drop]
                    omega
                  · exact absurd h (by simp)
                · exact absurd h (by simp)
            · exact absurd h (by simp)

/-- Strict UTF-8 decoding, fuelled: each step consumes at least one byte,
so `fuel ≥ bs.length` always suffices (`utf8DecodeFuel_mono`). -/
def utf8DecodeFuel : Nat → List Nat → Option (List Char)
  | _, [] => some []
  | 0, _ :: _ => none
  | fuel + 1, b :: bs =>
    match utf8DecodeChar (b :: bs) with
    | some (c, rest) => (utf8DecodeFuel fuel rest).map (fun cs => c :: cs)
    | none => none

/-- Strict UTF-8 decoding of a whole byte string
(Rust `String::from_utf8`). -/
def utf8Decode (bs : List Nat) : Option (List Char) :=
  utf8DecodeFuel bs.length bs

theorem utf8DecodeFuel_mono (f1 : Nat) :
    ∀ (f2 : Nat) (bs : List Nat), bs.length ≤ f1 → bs.length ≤ f2 →
      utf8DecodeFuel f1 bs = utf8DecodeFuel f2 bs := by
  induction f1 with
  | zero =>
    intro f2 bs h1 h2
    have : bs = [] := List.length_eq_zero.mp (Nat.le_zero.mp h1)
    subst this
    cases f2 <;> rfl
  | succ g1 ih =>
    intro f2 bs h1 h2
    rcases bs with _ | ⟨b, tl⟩
    · cases f2 <;> rfl
    · rcases f2 with _ | g2
      · simp at h2
      · show (match utf8DecodeChar (b :: tl) with
          | some (c, rest) => (utf8DecodeFuel g1 rest).map (fun cs => c :: cs)
          | none => none) = (match utf8DecodeChar (b :: tl) with
          | some (c, rest) => (utf8DecodeFuel g2 rest).map (fun cs => c :: cs)
          | none => none)
        rcases hd : utf8DecodeChar (b :: tl) with _ | ⟨c, rest⟩
        · rfl
        · have hlen := utf8DecodeChar_consumes hd
          simp only [List.length_cons] at hlen h1 h2
          dsimp only
          rw [ih g2 rest (by omega) (by omega)]

theorem utf8EncodeChar_ne_nil (c : Char) : utf8EncodeChar c ≠ [] := by
  unfold utf8EncodeChar
  by_cases h1 : c.toNat < 0x80
  · simp [h1]
  · by_cases h2 : c.toNat < 0x800
    · simp [h1, h2]
    · by_cases h3 : c.toNat < 0x10000
      · simp [h1, h2, h3]
      · simp [h1, h2, h3]

theorem utf8DecodeChar_encodeChar (c : Char) (bs : List Nat) :
    utf8DecodeChar (utf8EncodeChar c ++ bs) = some (c, bs) := by
  have hvalid : c.toNat < 0xD800 ∨ (0xDFFF < c.toNat ∧ c.toNat < 0x110000) :=
    c.valid
  unfold utf8EncodeChar
  by_cases h1 : c.toNat < 0x80
  · rw [if_pos h1]
    show utf8DecodeChar (c.toNat :: bs) = _
    unfold utf8DecodeChar
    dsimp only
    rw [if_pos h1, char_ofNat_toNat]
  · rw [if_neg h1]
    by_cases h2 : c.toNat < 0x800
    · rw [if_pos h2]
      show utf8DecodeChar ((0xC0 + c.toNat / 64) :: (0x80 + c.toNat % 64) ::
        bs) = _
      unfold utf8DecodeChar
      dsimp only
      have hd : c.toNat / 64 < 32 := by omega
      have hd2 : 2 ≤ c.toNat / 64 := by omega
      rw [if_neg (by omega), if_neg (by omega), if_pos (by omega),
        if_neg (by simp)]
      simp only [List.getD_cons_zero, List.drop_one, List.tail_cons]
      rw [if_pos (by omega)]
      have heq : (0xC0 + c.toNat / 64 - 0xC0) * 64 +
          (0x80 + c.toNat % 64 - 0x80) = c.toNat := by omega
      rw [heq, char_ofNat_toNat]
    · rw [if_neg h2]
      by_cases h3 : c.toNat < 0x10000
      · rw [if_pos h3]
        show utf8DecodeChar ((0xE0 + c.toNat / 4096) ::
          (0x80 + c.toNat / 64 % 64) :: (0x80 + c.toNat % 64) :: bs) = _
        unfold utf8DecodeChar
        dsimp only
        have hd : c.toNat / 4096 < 16 := by omega
        rw [if_neg (by omega), if_neg (by omega), if_neg (by omega),
          if_pos (by omega), if_neg (by simp)]
        simp only [List.getD_cons_zero, List.getD_cons_succ]
        rw [if_pos (by omega)]
        have heq : (0xE0 + c.toNat / 4096 - 0xE0) * 4096 +
            (0x80 + c.toNat / 64 % 64 - 0x80) * 64 +
            (0x80 + c.toNat % 64 - 0x80) = c.toNat := by omega
        rw [heq]
        rw [if_pos (by omega)]
        rw [char_ofNat_toNat]
        simp
      · rw [if_neg h3]
        show utf8DecodeChar ((0xF0 + c.toNat / 262144) ::
          (0x80 + c.toNat / 4096 % 64) :: (0x80 + c.toNat / 64 % 64) ::
          (0x80 + c.toNat % 64) :: bs) = _
        unfold utf8DecodeChar
        dsimp only
        have hub : c.toNat < 0x110000 := by omega
        have hd : c.toNat / 262144 < 5 := by omega
        rw [if_neg (by omega), if_neg (by omega), if_neg (by omega),
          if_neg (by omega), if_pos (by omega), if_neg (by simp)]
        simp only [List.getD_cons_zero, List.getD_cons_succ]
        rw [if_pos (by omega)]
        have heq : (0xF0 + c.toNat / 262144 - 0xF0) * 262144 +
            (0x80 + c.toNat / 4096 % 64 - 0x80) * 4096 +
            (0x80 + c.toNat / 64 % 64 - 0x80) * 64 +
            (0x80 + c.toNat % 64 - 0x80) = c.toNat := by omega
        rw [heq]
        rw [if_pos (by omega)]
        rw [char_ofNat_toNat]
        simp

theorem utf8Decode_encodeChar (c : Char) (bs : List Nat) :
    utf8Decode (utf8EncodeChar c ++ bs) =
      (utf8Decode bs).map (fun cs => c :: cs) := by
  obtain ⟨e0, es, he⟩ : ∃ e0 es, utf8EncodeChar c = e0 :: es := by
    rcases h : utf8EncodeChar c with _ | ⟨e0, es⟩
    · exact absurd h (utf8EncodeChar_ne_nil c)
    · exact ⟨e0, es, rfl⟩
  have hstep : utf8DecodeChar (e0 :: (es ++ bs)) = some (c, bs) := by
    rw [← List.cons_append, ← he]
    exact utf8DecodeChar_encodeChar c bs
  unfold utf8Decode
  rw [he, List.cons_append]
  show (match utf8DecodeChar (e0 :: (es ++ bs)) with
    | some (c, rest) =>
      (utf8DecodeFuel (es ++ bs).length rest).map (fun cs => c :: cs)
    | none => none) = _
  rw [hstep]
  show (utf8DecodeFuel (es ++ bs).length bs).map _ = _
  rw [utf8DecodeFuel_mono _ bs.length bs (by simp) (le_refl _)]

/-- Decoding inverts encoding: the binary writer's description bytes decode
back to the original description. -/
theorem utf8Decode_encode (s : List Char) :
    utf8Decode (utf8Encode s) = some s := by
  induction s with
  | nil => rfl
  | cons c cs ih =>
    show utf8Decode (utf8EncodeChar c ++ utf8Encode cs) = _
    rw [utf8Decode_encodeChar, ih]
    rfl

/-! ## Canonical data model (src/lib.rs) -/

/-- `TransactionType` from src/lib.rs. -/
inductive TransactionType where
  | Deposit
  | Transfer
  | Withdrawal
deriving DecidableEq, Repr

/-- `TransactionStatus` from src/lib.rs. -/
inductive TransactionStatus where
  | Success
  | Failure
  | Pending
deriving DecidableEq, Repr

/-- `Transaction` from src/lib.rs. `BinaryRecord` (src/binary_format.rs)
has the identical fields and the `From` conversions between the two copy
fields one-to-one, so both are represented by this structure. -/
structure Transaction where
  tx_id : Nat
  tx_type : TransactionType
  from_user_id : Nat
  to_user_id : Nat
  amount : Int
  timestamp : Nat
  status : TransactionStatus
  description : List Char
deriving DecidableEq, Repr

/-- The range invariants Rust's `u64`/`i64` field types impose on every
`Transaction` value. -/
def Transaction.wf (t : Transaction) : Prop :=
  t.tx_id < 2 ^ 64 ∧ t.from_user_id < 2 ^ 64 ∧ t.to_user_id < 2 ^ 64 ∧
  t.timestamp < 2 ^ 64 ∧ -(2 ^ 63) ≤ t.amount ∧ t.amount < 2 ^ 63

instance (t : Transaction) : Decidable t.wf := by
  unfold Transaction.wf
  infer_instance

/-! ## Big-endian integers (`byteorder` crate, as used by the binary codec) -/

/-- Value of a big-endian byte list. -/
def beVal (bs : List Nat) : Nat := bs.foldl (fun acc b => acc * 256 + b) 0

/-- `k`-byte big-endian encoding of `n` (low `8 * k` bits). -/
def beBytes (k n : Nat) : List Nat :=
  (List.range k).reverse.map (fun i => n / 256 ^ i % 256)

@[simp] theorem beBytes_length (k n : Nat) : (beBytes k n).length = k := by
  simp [beBytes]

theorem beVal_from (a : Nat) (bs : List Nat) :
    bs.foldl (fun acc b => acc * 256 + b) a =
      a * 256 ^ bs.length + beVal bs := by
  induction bs generalizing a with
  | nil => simp [beVal]
  | cons b tl ih =>
    show List.foldl _ (a * 256 + b) tl =
      a * 256 ^ (b :: tl).length + beVal (b :: tl)
    rw [ih (a * 256 + b)]
    have hb : beVal (b :: tl) =
        List.foldl (fun acc x => acc * 256 + x) (0 * 256 + b) tl := rfl
    rw [hb, ih (0 * 256 + b)]
    simp only [List.length_cons]
    ring

theorem beVal_cons (b : Nat) (bs : List Nat) :
    beVal (b :: bs) = b * 256 ^ bs.length + beVal bs := by
  show List.foldl _ (0 * 256 + b) bs = _
  rw [beVal_from]
  ring

theorem beBytes_succ (k n : Nat) :
    beBytes (k + 1) n = (n / 256 ^ k % 256) :: beBytes k n := by
  unfold beBytes
  rw [List.range_succ]
  simp

theorem beVal_beBytes (k n : Nat) : beVal (beBytes k n) = n % 256 ^ k := by
  induction k with
  | zero => simp [beBytes, beVal, Nat.mod_one]
  | succ k ih =>
    rw [beBytes_succ, beVal_cons, beBytes_length, ih]
    have h1 := Nat.div_add_mod n (256 ^ k)
    have h2 : 256 ^ (k + 1) = 256 ^ k * 256 := by ring
    rw [h2, Nat.mod_mul]
    ring

theorem beVal_beBytes_of_lt {k n : Nat} (h : n < 256 ^ k) :
    beVal (beBytes k n) = n := by
  rw [beVal_beBytes, Nat.mod_eq_of_lt h]

/-- Two's-complement `u64` image of an `i64` value (`write_i64`). -/
def i64ToNat (a : Int) : Nat := (a % 2 ^ 64).toNat

/-- `i64` value of a `u64` bit pattern (`read_i64`). -/
def i64OfNat (v : Nat) : Int :=
  if v < 2 ^ 63 then (v : Int) else (v : Int) - 2 ^ 64

theorem i64ToNat_lt (a : Int) : i64ToNat a < 2 ^ 64 := by
  unfold i64ToNat
  have h1 : (0 : Int) ≤ a % 2 ^ 64 := Int.emod_nonneg a (by norm_num)
  have h2 : a % 2 ^ 64 < 2 ^ 64 := Int.emod_lt_of_pos a (by norm_num)
  omega

theorem i64OfNat_toNat {a : Int} (hlo : -(2 ^ 63) ≤ a) (hhi : a < 2 ^ 63) :
    i64OfNat (i64ToNat a) = a := by
  unfold i64OfNat i64ToNat
  split
  · omega
  · omega

/-! ## Binary codec (src/binary_format.rs) -/

/-- The `{:?}` rendering of a byte array in the invalid-magic message. -/
def byteListRepr (bs : List Nat) : String :=
  "[" ++ String.intercalate ", " (bs.map (fun b => toString b)) ++ "]"

/-- Byte at offset `i` of the stream. Callers guard `i < input.length`, so
the default is never produced. -/
def byteAt (input : List Nat) (i : Nat) : Nat := input.getD i 0

/-- The `0x59 0x50 0x42 0x4E` magic ("YPBN"). -/
def MAGIC : List Nat := [0x59, 0x50, 0x42, 0x4E]

/-- The 1 MiB description cap (`MAX_DESC_LEN`). -/
def MAX_DESC_LEN : Nat := 1024 * 1024

/-- `tx_type` wire byte (src/binary_format.rs lines 479-483). -/
def txTypeByte : TransactionType → Nat
  | .Deposit => 0
  | .Transfer => 1
  | .Withdrawal => 2

/-- Wire byte to `tx_type` (src/binary_format.rs lines 310-320). -/
def txTypeOfByte (b : Nat) : Option TransactionType :=
  if b = 0 then some .Deposit
  else if b = 1 then some .Transfer
  else if b = 2 then some .Withdrawal
  else none

/-- `status` wire byte (src/binary_format.rs lines 491-495). -/
def statusByte : TransactionStatus → Nat
  | .Success => 0
  | .Failure => 1
  | .Pending => 2

/-- Wire byte to `status` (src/binary_format.rs lines 331-341). -/
def statusOfByte (b : Nat) : Option TransactionStatus :=
  if b = 0 then some .Success
  else if b = 1 then some .Failure
  else if b = 2 then some .Pending
  else none

/-- The binary reader's error values (messages as formatted by
src/binary_format.rs; named here so proofs can treat them atomically). -/
def magicErr (seen : List Nat) : ParserError :=
  .Parse ("Invalid magic number: " ++ byteListRepr seen ++ ", expected " ++
    byteListRepr MAGIC)

def txTypeErr (b : Nat) : ParserError :=
  .Parse ("Invalid TX_TYPE: " ++ toString b)

def statusErr (b : Nat) : ParserError :=
  .Parse ("Invalid STATUS: " ++ toString b)

def sizeMismatchErr (header expected : Nat) : ParserError :=
  .Parse ("Record size mismatch: header says " ++ toString header ++
    ", expected " ++ toString expected)

def descTooLongErr (dl : Nat) : ParserError :=
  .Parse ("Description too long: " ++ toString dl ++ " bytes, maximum is "
    ++ toString MAX_DESC_LEN)

def utf8Err : ParserError := .Parse "Invalid UTF-8 in description"

namespace BinaryRecord

/-- `BinaryRecord::normalize_description` (src/binary_format.rs lines
395-403). `none` models the Rust panic: when the trimmed text is the single
character `"`, `starts_with` and `ends_with` both hold and the source takes
the byte slice `trimmed[1..0]`, whose inverted range panics. For a trimmed
text of two or more characters that starts and ends with `"`, those quotes
are one byte each, so the byte slice `[1..len-1]` is exactly "drop the
first and last character". -/
def normalize_description (description : List Char) : Option (List Char) :=
  let trimmed := rustTrim description
  if trimmed.head? = some '"' ∧ trimmed.getLast? = some '"' then
    if trimmed.length = 1 then none
    else some ((trimmed.drop 1).dropLast)
  else some trimmed

/-- `BinaryRecord::write_to` (src/binary_format.rs lines 443-505),
returning the bytes pushed to the writer. The source emits the magic before
validating; on error we drop the partial sink contents, which no theorem
below inspects. The `self.description.len() as u32` cast is the `% 2^32`.
The `checked_add` overflow test on `46 + desc_len` cannot fire (both
summands are below `2^32`), so no branch models it. -/
def write_to (t : Transaction) : Outcome (List Nat) :=
  let desc_bytes := utf8Encode t.description
  let desc_len := desc_bytes.length % 2 ^ 32
  if desc_len > MAX_DESC_LEN then .fail (descTooLongErr desc_len)
  else
    let record_size := 46 + desc_len
    if record_size > 4294967295 then
      .fail (.Parse "Record size exceeds maximum allowed size")
    else
      .ok (MAGIC ++ beBytes 4 record_size ++ beBytes 8 t.tx_id ++
        [txTypeByte t.tx_type] ++ beBytes 8 t.from_user_id ++
        beBytes 8 t.to_user_id ++ beBytes 8 (i64ToNat t.amount) ++
        beBytes 8 t.timestamp ++ [statusByte t.status] ++
        beBytes 4 desc_len ++ desc_bytes)

/-- `BinaryRecord::from_read` (src/binary_format.rs lines 294-393) on an
in-memory stream: reads one record off the front of `input` and returns it
with the unread remainder. Reads are modelled as `take`/`drop` at the
running offset; a read past the end is the `UnexpectedEof` I/O error
`read_exact` produces. The source's let bindings (`record_size`, `tx_id`,
`from_user_id`, `to_user_id`, `amount`, `timestamp`, `desc_len`) are
inlined at their use sites. The UTF-8 error message carries the `Utf8Error`
rendering in the source; the claims never inspect it, so it is fixed
text here. -/
def from_read (input : List Nat) : Outcome (Transaction × List Nat) :=
  if input.length < 4 then .fail (.Io .unexpectedEof)
  else if input.take 4 ≠ MAGIC then .fail (magicErr (input.take 4))
  else if input.length < 8 then .fail (.Io .unexpectedEof)
  else if input.length < 16 then .fail (.Io .unexpectedEof)
  else if input.length < 17 then .fail (.Io .unexpectedEof)
  else
    match txTypeOfByte (byteAt input 16) with
    | none => .fail (txTypeErr (byteAt input 16))
    | some tx_type =>
      if input.length < 25 then .fail (.Io .unexpectedEof)
      else if input.length < 33 then .fail (.Io .unexpectedEof)
      else if input.length < 41 then .fail (.Io .unexpectedEof)
      else if input.length < 49 then .fail (.Io .unexpectedEof)
      else if input.length < 50 then .fail (.Io .unexpectedEof)
      else
        match statusOfByte (byteAt input 49) with
        | none => .fail (statusErr (byteAt input 49))
        | some status =>
          if input.length < 54 then .fail (.Io .unexpectedEof)
          else if beVal ((input.drop 4).take 4) ≠
              46 + beVal ((input.drop 50).take 4) then
            .fail (sizeMismatchErr (beVal ((input.drop 4).take 4))
              (46 + beVal ((input.drop 50).take 4)))
          else if beVal ((input.drop 50).take 4) > MAX_DESC_LEN then
            .fail (descTooLongErr (beVal ((input.drop 50).take 4)))
          else if input.length < 54 + beVal ((input.drop 50).take 4) then
            .fail (.Io .unexpectedEof)
          else
            match utf8Decode ((input.drop 54).take
                (beVal ((input.drop 50).take 4))) with
            | none => .fail utf8Err
            | some raw =>
              match normalize_description raw with
              | none => .panicked
              | some description =>
                .ok (⟨beVal ((input.drop 8).take 8), tx_type,
                  beVal ((input.drop 17).take 8),
                  beVal ((input.drop 25).take 8),
                  i64OfNat (beVal ((input.drop 33).take 8)),
                  beVal ((input.drop 41).take 8), status, description⟩,
                  input.drop (54 + beVal ((input.drop 50).take 4)))

end BinaryRecord

namespace BinaryParser

/-- The loop body of `BinaryParser::parse_records` (src/binary_format.rs
lines 47-59), fuelled: each successful `from_read` consumes at least 54
bytes, so any fuel above `input.length` is enough
(`parseRecordsGo_mono`). -/
def parseRecordsGo : Nat → List Nat → Outcome (List Transaction)
  | 0, _ => .ok []
  | fuel + 1, input =>
    match BinaryRecord.from_read input with
    | .ok (r, rest) => (parseRecordsGo fuel rest).map (fun rs => r :: rs)
    | .fail (.Io .unexpectedEof) => .ok []
    | .fail e => .fail e
    | .panicked => .panicked

/-- `BinaryParser::parse_records`: read records until end of stream; an
`UnexpectedEof` from `from_read` — wherever it occurs — ends the loop
successfully, any other error is fatal. -/
def parse_records (input : List Nat) : Outcome (List Transaction) :=
  parseRecordsGo (input.length + 1) input

/-- `BinaryParser::write_records` (src/binary_format.rs lines 70-79),
returning the concatenated bytes. -/
def write_records : List Transaction → Outcome (List Nat)
  | [] => .ok []
  | t :: ts =>
    match BinaryRecord.write_to t with
    | .ok bytes => (write_records ts).map (fun bs => bytes ++ bs)
    | .fail e => .fail e
    | .panicked => .panicked

end BinaryParser

/-! ### Binary codec lemmas -/

theorem byteAt_drop (l : List Nat) (n : Nat) :
    byteAt l n = (l.drop n).getD 0 0 := by
  unfold byteAt
  simp [List.getD_eq_getElem?_getD, List.getElem?_drop]

/-- The bytes `write_to` produces when the description is within the cap. -/
def binBytes (t : Transaction) : List Nat :=
  MAGIC ++ beBytes 4 (46 + utf8Len t.description) ++ beBytes 8 t.tx_id ++
  [txTypeByte t.tx_type] ++ beBytes 8 t.from_user_id ++
  beBytes 8 t.to_user_id ++ beBytes 8 (i64ToNat t.amount) ++
  beBytes 8 t.timestamp ++ [statusByte t.status] ++
  beBytes 4 (utf8Len t.description) ++ utf8Encode t.description

theorem write_to_eq (t : Transaction)
    (hcap : utf8Len t.description ≤ MAX_DESC_LEN) :
    BinaryRecord.write_to t = .ok (binBytes t) := by
  unfold BinaryRecord.write_to
  have hmod : (utf8Encode t.description).length % 2 ^ 32 =
      utf8Len t.description := by
    unfold utf8Len
    apply Nat.mod_eq_of_lt
    unfold MAX_DESC_LEN at hcap
    unfold utf8Len at hcap
    omega
  simp only [hmod]
  rw [if_neg (by omega)]
  rw [if_neg (by unfold MAX_DESC_LEN at hcap; omega)]
  unfold binBytes
  rfl

theorem txTypeOfByte_txTypeByte (ty : TransactionType) :
    txTypeOfByte (txTypeByte ty) = some ty := by
  cases ty <;> rfl

theorem statusOfByte_statusByte (st : TransactionStatus) :
    statusOfByte (statusByte st) = some st := by
  cases st <;> rfl

theorem binBytes_length (t : Transaction) :
    (binBytes t).length = 54 + utf8Len t.description := by
  simp [binBytes, MAGIC, utf8Len]
  omega

/-- Reading back exactly what `write_to` wrote, with anything after it left
in the stream. -/
theorem from_read_binBytes (t : Transaction) (rest : List Nat)
    (hwf : t.wf) (hcap : utf8Len t.description ≤ MAX_DESC_LEN)
    (hnorm : BinaryRecord.normalize_description t.description =
      some t.description) :
    BinaryRecord.from_read (binBytes t ++ rest) = .ok (t, rest) := by
  obtain ⟨hid, hfrom, hto, hts, halo, hahi⟩ := hwf
  set dl := utf8Len t.description with hdl
  have hdlcap : dl ≤ 1024 * 1024 := hcap
  set input := binBytes t ++ rest with hinput
  have e0 : input = MAGIC ++ (beBytes 4 (46 + dl) ++ (beBytes 8 t.tx_id ++ ([txTypeByte t.tx_type] ++ (beBytes 8 t.from_user_id ++ (beBytes 8 t.to_user_id ++ (beBytes 8 (i64ToNat t.amount) ++ (beBytes 8 t.timestamp ++ ([statusByte t.status] ++ (beBytes 4 dl ++ (utf8Encode t.description ++ (rest))))))))))) := by
    simp [hinput, binBytes, List.append_assoc]
  have d4 : input.drop 4 = beBytes 4 (46 + dl) ++ (beBytes 8 t.tx_id ++ ([txTypeByte t.tx_type] ++ (beBytes 8 t.from_user_id ++ (beBytes 8 t.to_user_id ++ (beBytes 8 (i64ToNat t.amount) ++ (beBytes 8 t.timestamp ++ ([statusByte t.status] ++ (beBytes 4 dl ++ (utf8Encode t.description ++ (rest)))))))))) := by
    rw [e0]
    exact List.drop_left' (by simp [MAGIC])
  have d8 : input.drop 8 = beBytes 8 t.tx_id ++ ([txTypeByte t.tx_type] ++ (beBytes 8 t.from_user_id ++ (beBytes 8 t.to_user_id ++ (beBytes 8 (i64ToNat t.amount) ++ (beBytes 8 t.timestamp ++ ([statusByte t.status] ++ (beBytes 4 dl ++ (utf8Encode t.description ++ (rest))))))))) := by
    rw [show (8 : Nat) = 4 + 4 from rfl, ← List.drop_drop, d4]
    exact List.drop_left' (by simp)
  have d16 : input.drop 16 = [txTypeByte t.tx_type] ++ (beBytes 8 t.from_user_id ++ (beBytes 8 t.to_user_id ++ (beBytes 8 (i64ToNat t.amount) ++ (beBytes 8 t.timestamp ++ ([statusByte t.status] ++ (beBytes 4 dl ++ (utf8Encode t.description ++ (rest)))))))) := by
    rw [show (16 : Nat) = 8 + 8 from rfl, ← List.drop_drop, d8]
    exact List.drop_left' (by simp)
  have d17 : input.drop 17 = beBytes 8 t.from_user_id ++ (beBytes 8 t.to_user_id ++ (beBytes 8 (i64ToNat t.amount) ++ (beBytes 8 t.timestamp ++ ([statusByte t.status] ++ (beBytes 4 dl ++ (utf8Encode t.description ++ (rest))))))) := by
    rw [show (17 : Nat) = 16 + 1 from rfl, ← List.drop_drop, d16]
    exact List.drop_left' (by simp)
  have d25 : input.drop 25 = beBytes 8 t.to_user_id ++ (beBytes 8 (i64ToNat t.amount) ++ (beBytes 8 t.timestamp ++ ([statusByte t.status] ++ (beBytes 4 dl ++ (utf8Encode t.description ++ (rest)))))) := by
    rw [show (25 : Nat) = 17 + 8 from rfl, ← List.drop_drop, d17]
    exact List.drop_left' (by simp)
  have d33 : input.drop 33 = beBytes 8 (i64ToNat t.amount) ++ (beBytes 8 t.timestamp ++ ([statusByte t.status] ++ (beBytes 4 dl ++ (utf8Encode t.description ++ (rest))))) := by
    rw [show (33 : Nat) = 25 + 8 from rfl, ← List.drop_drop, d25]
    exact List.drop_left' (by simp)
  have d41 : input.drop 41 = beBytes 8 t.timestamp ++ ([statusByte t.status] ++ (beBytes 4 dl ++ (utf8Encode t.description ++ (rest)))) := by
    rw [show (41 : Nat) = 33 + 8 from rfl, ← List.drop_drop, d33]
    exact List.drop_left' (by simp)
  have d49 : input.drop 49 = [statusByte t.status] ++ (beBytes 4 dl ++ (utf8Encode t.description ++ (rest))) := by
    rw [show (49 : Nat) = 41 + 8 from rfl, ← List.drop_drop, d41]
    exact List.drop_left' (by simp)
  have d50 : input.drop 50 = beBytes 4 dl ++ (utf8Encode t.description ++ (rest)) := by
    rw [show (50 : Nat) = 49 + 1 from rfl, ← List.drop_drop, d49]
    exact List.drop_left' (by simp)
  have d54 : input.drop 54 = utf8Encode t.description ++ (rest) := by
    rw [show (54 : Nat) = 50 + 4 from rfl, ← List.drop_drop, d50]
    exact List.drop_left' (by simp)
  have hlen : input.length = 54 + dl + rest.length := by
    rw [hinput, List.length_append, binBytes_length]
  have t4 : input.take 4 = MAGIC := by
    rw [e0]
    exact List.take_left' (by simp [MAGIC])
  have s4 : (input.drop 4).take 4 = beBytes 4 (46 + dl) := by
    rw [d4]
    exact List.take_left' (by simp)
  have s8 : (input.drop 8).take 8 = beBytes 8 t.tx_id := by
    rw [d8]
    exact List.take_left' (by simp)
  have s17 : (input.drop 17).take 8 = beBytes 8 t.from_user_id := by
    rw [d17]
    exact List.take_left' (by simp)
  have s25 : (input.drop 25).take 8 = beBytes 8 t.to_user_id := by
    rw [d25]
    exact List.take_left' (by simp)
  have s33 : (input.drop 33).take 8 = beBytes 8 (i64ToNat t.amount) := by
    rw [d33]
    exact List.take_left' (by simp)
  have s41 : (input.drop 41).take 8 = beBytes 8 t.timestamp := by
    rw [d41]
    exact List.take_left' (by simp)
  have s50 : (input.drop 50).take 4 = beBytes 4 dl := by
    rw [d50]
    exact List.take_left' (by simp)
  have b16 : byteAt input 16 = txTypeByte t.tx_type := by
    rw [byteAt_drop, d16]
    rfl
  have b49 : byteAt input 49 = statusByte t.status := by
    rw [byteAt_drop, d49]
    rfl
  have hdlen : (utf8Encode t.description).length = dl := by
    rw [hdl]
    rfl
  have s54 : (input.drop 54).take dl = utf8Encode t.description := by
    rw [d54]
    exact List.take_left' hdlen
  have dfin : input.drop (54 + dl) = rest := by
    rw [← List.drop_drop, d54]
    exact List.drop_left' hdlen
  have hp4 : (256 : Nat) ^ 4 = 4294967296 := by norm_num
  have hp8 : (256 : Nat) ^ 8 = 2 ^ 64 := by norm_num
  have hv44 : beVal (beBytes 4 (46 + dl)) = 46 + dl :=
    beVal_beBytes_of_lt (by rw [hp4]; omega)
  have hv4dl : beVal (beBytes 4 dl) = dl :=
    beVal_beBytes_of_lt (by rw [hp4]; omega)
  have hvid : beVal (beBytes 8 t.tx_id) = t.tx_id :=
    beVal_beBytes_of_lt (by rw [hp8]; omega)
  have hvfrom : beVal (beBytes 8 t.from_user_id) = t.from_user_id :=
    beVal_beBytes_of_lt (by rw [hp8]; omega)
  have hvto : beVal (beBytes 8 t.to_user_id) = t.to_user_id :=
    beVal_beBytes_of_lt (by rw [hp8]; omega)
  have hvts : beVal (beBytes 8 t.timestamp) = t.timestamp :=
    beVal_beBytes_of_lt (by rw [hp8]; omega)
  have hvam : beVal (beBytes 8 (i64ToNat t.amount)) = i64ToNat t.amount :=
    beVal_beBytes_of_lt (by rw [hp8]; exact i64ToNat_lt t.amount)
  have ham : i64OfNat (i64ToNat t.amount) = t.amount :=
    i64OfNat_toNat halo hahi
  unfold BinaryRecord.from_read
  simp only [hlen, t4, s4, s8, b16, s17, s25, s33, s41, b49, s50, s54,
    dfin, hv44, hv4dl, hvid, hvfrom, hvto, hvts, hvam, ham,
    txTypeOfByte_txTypeByte, statusOfByte_statusByte,
    utf8Decode_encode, hnorm]
  rw [if_neg (show ¬ (54 + dl + rest.length < 4) by omega),
    if_neg (by simp),
    if_neg (show ¬ (54 + dl + rest.length < 8) by omega),
    if_neg (show ¬ (54 + dl + rest.length < 16) by omega),
    if_neg (show ¬ (54 + dl + rest.length < 17) by omega),
    if_neg (show ¬ (54 + dl + rest.length < 25) by omega),
    if_neg (show ¬ (54 + dl + rest.length < 33) by omega),
    if_neg (show ¬ (54 + dl + rest.length < 41) by omega),
    if_neg (show ¬ (54 + dl + rest.length < 49) by omega),
    if_neg (show ¬ (54 + dl + rest.length < 50) by omega),
    if_neg (show ¬ (54 + dl + rest.length < 54) by omega),
    if_neg (by simp), if_neg (by simp [MAX_DESC_LEN]; omega),
    if_neg (show ¬ (54 + dl + rest.length < 54 + dl) by omega)]


/-- A successful `from_read` consumes at least the 54 fixed bytes. -/
theorem from_read_consumes {input : List Nat} {t : Transaction}
    {rest : List Nat}
    (h : BinaryRecord.from_read input = .ok (t, rest)) :
    rest.length < input.length := by
  unfold BinaryRecord.from_read at h
  by_cases h4 : input.length < 4
  · rw [if_pos h4] at h
    exact Outcome.noConfusion h
  · rw [if_neg h4] at h
    by_cases hm : input.take 4 ≠ MAGIC
    · rw [if_pos hm] at h
      exact Outcome.noConfusion h
    · rw [if_neg hm] at h
      by_cases h8 : input.length < 8
      · rw [if_pos h8] at h
        exact Outcome.noConfusion h
      · rw [if_neg h8] at h
        by_cases h16 : input.length < 16
        · rw [if_pos h16] at h
          exact Outcome.noConfusion h
        · rw [if_neg h16] at h
          by_cases h17 : input.length < 17
          · rw [if_pos h17] at h
            exact Outcome.noConfusion h
          · rw [if_neg h17] at h
            rcases htx : txTypeOfByte (byteAt input 16) with _ | ty
            · simp only [htx] at h
              exact Outcome.noConfusion h
            · simp only [htx] at h
              by_cases h25 : input.length < 25
              · rw [if_pos h25] at h
                exact Outcome.noConfusion h
              · rw [if_neg h25] at h
                by_cases h33 : input.length < 33
                · rw [if_pos h33] at h
                  exact Outcome.noConfusion h
                · rw [if_neg h33] at h
                  by_cases h41 : input.length < 41
                  · rw [if_pos h41] at h
                    exact Outcome.noConfusion h
                  · rw [if_neg h41] at h
                    by_cases h49 : input.length < 49
                    · rw [if_pos h49] at h
                      exact Outcome.noConfusion h
                    · rw [if_neg h49] at h
                      by_cases h50 : input.length < 50
                      · rw [if_pos h50] at h
                        exact Outcome.noConfusion h
                      · rw [if_neg h50] at h
                        rcases hst : statusOfByte (byteAt input 49) with _ | st
                        · simp only [hst] at h
                          exact Outcome.noConfusion h
                        · simp only [hst] at h
                          by_cases h54 : input.length < 54
                          · rw [if_pos h54] at h
                            exact Outcome.noConfusion h
                          · rw [if_neg h54] at h
                            by_cases hmis : beVal ((input.drop 4).take 4) ≠ 46 + beVal ((input.drop 50).take 4)
                            · rw [if_pos hmis] at h
                              exact Outcome.noConfusion h
                            · rw [if_neg hmis] at h
                              by_cases hcap2 : beVal ((input.drop 50).take 4) > MAX_DESC_LEN
                              · rw [if_pos hcap2] at h
                                exact Outcome.noConfusion h
                              · rw [if_neg hcap2] at h
                                by_cases h54dl : input.length < 54 + beVal ((input.drop 50).take 4)
                                · rw [if_pos h54dl] at h
                                  exact Outcome.noConfusion h
                                · rw [if_neg h54dl] at h
                                  rcases hdec : utf8Decode ((input.drop 54).take (beVal ((input.drop 50).take 4))) with _ | raw
                                  · simp only [hdec] at h
                                    exact Outcome.noConfusion h
                                  · simp only [hdec] at h
                                    rcases hn : BinaryRecord.normalize_description raw with _ | descr
                                    · simp only [hn] at h
                                      exact Outcome.noConfusion h
                                    · simp only [hn] at h
                                      injection h with hp
                                      injection hp with ha hb
                                      subst hb
                                      simp only [List.length_drop]
                                      omega

/-- `parseRecordsGo` ignores the exact fuel once it exceeds the input
length. -/
theorem parseRecordsGo_mono (f1 : Nat) :
    ∀ (f2 : Nat) (input : List Nat), input.length < f1 → input.length < f2 →
      BinaryParser.parseRecordsGo f1 input = BinaryParser.parseRecordsGo f2
        input := by
  induction f1 with
  | zero => omega
  | succ g1 ih =>
    intro f2 input h1 h2
    rcases f2 with _ | g2
    · omega
    · show (match BinaryRecord.from_read input with
        | .ok (r, rest) =>
          (BinaryParser.parseRecordsGo g1 rest).map (fun rs => r :: rs)
        | .fail (.Io .unexpectedEof) => .ok []
        | .fail e => .fail e
        | .panicked => .panicked) = (match BinaryRecord.from_read input with
        | .ok (r, rest) =>
          (BinaryParser.parseRecordsGo g2 rest).map (fun rs => r :: rs)
        | .fail (.Io .unexpectedEof) => .ok []
        | .fail e => .fail e
        | .panicked => .panicked)
      rcases hd : BinaryRecord.from_read input with ⟨r, rest⟩ | e | _
      · have := from_read_consumes hd
        dsimp only
        rw [ih g2 rest (by omega) (by omega)]
      · rcases e with k | m | m | _ | m
        · rcases k with _ | _
          · rfl
          · rfl
        · rfl
        · rfl
        · rfl
        · rfl
      · rfl

/-- Unfolding `parse_records` one record at a time. -/
theorem parse_records_cons {input : List Nat} {t : Transaction}
    {rest : List Nat}
    (h : BinaryRecord.from_read input = .ok (t, rest)) :
    BinaryParser.parse_records input =
      (BinaryParser.parse_records rest).map (fun rs => t :: rs) := by
  unfold BinaryParser.parse_records
  show (match BinaryRecord.from_read input with
    | .ok (r, rest) =>
      (BinaryParser.parseRecordsGo input.length rest).map (fun rs => r :: rs)
    | .fail (.Io .unexpectedEof) => .ok []
    | .fail e => .fail e
    | .panicked => .panicked) = _
  rw [h]
  have := from_read_consumes h
  dsimp only
  rw [parseRecordsGo_mono input.length (rest.length + 1) rest (by omega)
    (by omega)]

/-- `parse_records` of an empty stream: clean EOF at a record boundary. -/
theorem parse_records_nil : BinaryParser.parse_records [] = .ok [] := rfl

/-- `parse_records` stops successfully whenever `from_read` reports
`UnexpectedEof`, and propagates any other failure. -/
theorem parse_records_of_from_read_fail {input : List Nat}
    {e : ParserError} (h : BinaryRecord.from_read input = .fail e) :
    BinaryParser.parse_records input =
      (if e = .Io .unexpectedEof then .ok [] else .fail e) := by
  unfold BinaryParser.parse_records
  show (match BinaryRecord.from_read input with
    | .ok (r, rest) =>
      (BinaryParser.parseRecordsGo input.length rest).map (fun rs => r :: rs)
    | .fail (.Io .unexpectedEof) => .ok []
    | .fail e => .fail e
    | .panicked => .panicked) = _
  rw [h]
  rcases e with k | m | m | _ | m
  · rcases k with _ | _
    · simp
    · simp
  · simp
  · simp
  · simp
  · simp

/-- The full binary round trip for one well-formed record list. -/
theorem binary_roundtrip (ts : List Transaction)
    (hwf : ∀ t ∈ ts, t.wf)
    (hcap : ∀ t ∈ ts, utf8Len t.description ≤ MAX_DESC_LEN)
    (hnorm : ∀ t ∈ ts, BinaryRecord.normalize_description t.description =
      some t.description) :
    ∃ w, BinaryParser.write_records ts = .ok w ∧
      BinaryParser.parse_records w = .ok ts := by
  induction ts with
  | nil => exact ⟨[], rfl, rfl⟩
  | cons t ts ih =>
    obtain ⟨w, hw, hp⟩ := ih (fun x hx => hwf x (List.mem_cons_of_mem t hx))
      (fun x hx => hcap x (List.mem_cons_of_mem t hx))
      (fun x hx => hnorm x (List.mem_cons_of_mem t hx))
    have ht := List.mem_cons_self t ts
    refine ⟨binBytes t ++ w, ?_, ?_⟩
    · show (match BinaryRecord.write_to t with
        | .ok bytes => (BinaryParser.write_records ts).map
            (fun bs => bytes ++ bs)
        | .fail e => .fail e
        | .panicked => .panicked) = _
      rw [write_to_eq t (hcap t ht), hw]
      rfl
    · rw [parse_records_cons (from_read_binBytes t w (hwf t ht) (hcap t ht)
        (hnorm t ht)), hp]
      rfl

/-! ## CSV codec (src/csv_format.rs) -/

/-- Characters of a string literal, for writing `&str` constants. -/
def cs (s : String) : List Char := s.data

/-- Exact uppercase `TX_TYPE` tokens accepted by the CSV reader
(src/csv_format.rs lines 230-240). -/
def txTypeOfToken (s : List Char) : Option TransactionType :=
  if s = cs "DEPOSIT" then some .Deposit
  else if s = cs "TRANSFER" then some .Transfer
  else if s = cs "WITHDRAWAL" then some .Withdrawal
  else none

/-- Exact uppercase `STATUS` tokens accepted by the CSV reader
(src/csv_format.rs lines 270-280). -/
def statusOfToken (s : List Char) : Option TransactionStatus :=
  if s = cs "SUCCESS" then some .Success
  else if s = cs "FAILURE" then some .Failure
  else if s = cs "PENDING" then some .Pending
  else none

/-- `TX_TYPE` written form (src/csv_format.rs lines 98-102). -/
def txTypeToken : TransactionType → List Char
  | .Deposit => cs "DEPOSIT"
  | .Transfer => cs "TRANSFER"
  | .Withdrawal => cs "WITHDRAWAL"

/-- `STATUS` written form (src/csv_format.rs lines 104-108). -/
def statusToken : TransactionStatus → List Char
  | .Success => cs "SUCCESS"
  | .Failure => cs "FAILURE"
  | .Pending => cs "PENDING"

namespace CsvParser

/-- `CsvParser::escape_description` (src/csv_format.rs lines 348-351):
double each `"` and wrap the whole field in quotes. -/
def escape_description (description : List Char) : List Char :=
  '"' :: (description.map fun c =>
    if c = '"' then ['"', '"'] else [c]).flatten ++ ['"']

/-- Rust `str::replace("\"\"", "\"")`: collapse doubled quotes, leftmost
first. -/
def collapseQuotes : List Char → List Char
  | [] => []
  | '"' :: '"' :: rest => '"' :: collapseQuotes rest
  | c :: rest => c :: collapseQuotes rest

/-- `CsvParser::unescape_description` (src/csv_format.rs lines 353-362).
`none` models the Rust panic on the byte slice `trimmed[1..0]` taken when
the trimmed field is the single character `"` (same shape as
`BinaryRecord::normalize_description`). -/
def unescape_description (description : List Char) : Option (List Char) :=
  let trimmed := rustTrim description
  if trimmed.head? = some '"' ∧ trimmed.getLast? = some '"' then
    if trimmed.length = 1 then none
    else some (collapseQuotes ((trimmed.drop 1).dropLast))
  else some trimmed

/-- The quoted-field scanner loop of `CsvParser::parse_line`
(src/csv_format.rs lines 130-168): state is the remaining characters, the
`in_quotes` flag, the current field, and the fields already produced;
returns the fields (with the final `current_field` pushed) and the final
`in_quotes` flag. -/
def parseLineAux : List Char → Bool → List Char → List (List Char) →
    (List (List Char) × Bool)
  | [], inq, cur, fields => (fields ++ [cur], inq)
  | '"' :: rest, false, cur, fields => parseLineAux rest true cur fields
  | '"' :: '"' :: rest2, true, cur, fields =>
    parseLineAux rest2 true (cur ++ ['"']) fields
  | '"' :: rest, true, cur, fields => parseLineAux rest false cur fields
  | ',' :: rest, inq, cur, fields =>
    if inq then parseLineAux rest true (cur ++ [',']) fields
    else parseLineAux rest false [] (fields ++ [cur])
  | c :: rest, inq, cur, fields => parseLineAux rest inq (cur ++ [c]) fields

/-- `CsvParser::parse_line` (src/csv_format.rs lines 130-178). -/
def parse_line (line : List Char) (line_num : Nat) :
    Outcome (List (List Char)) :=
  match parseLineAux line false [] [] with
  | (fields, inq) =>
    if inq then
      .fail (.Parse ("Line " ++ toString line_num ++
        ": Unclosed double quote"))
    else .ok fields

/-- The expected CSV header row (src/csv_format.rs lines 181-190). -/
def expectedHeaders : List (List Char) :=
  [cs "TX_ID", cs "TX_TYPE", cs "FROM_USER_ID", cs "TO_USER_ID",
    cs "AMOUNT", cs "TIMESTAMP", cs "STATUS", cs "DESCRIPTION"]

/-- The indexed comparison loop of `CsvParser::validate_headers`
(src/csv_format.rs lines 200-209). -/
def checkHeaders : Nat → List (List Char) → List (List Char) → Outcome Unit
  | _, [], _ => .ok ()
  | _, _ :: _, [] => .ok ()
  | i, a :: as, e :: es =>
    if a ≠ e then
      .fail (.Parse ("Column " ++ toString (i + 1) ++ ": expected '" ++
        String.mk e ++ "', got '" ++ String.mk a ++ "'"))
    else checkHeaders (i + 1) as es

/-- `CsvParser::validate_headers` (src/csv_format.rs lines 180-212). -/
def validate_headers (headers : List (List Char)) : Outcome Unit :=
  if headers.length ≠ 8 then
    .fail (.Parse ("Expected 8 columns, got " ++ toString headers.length))
  else checkHeaders 0 headers expectedHeaders

/-- `CsvParser::validate_record` (src/csv_format.rs lines 298-346). -/
def validate_record (tx_type : TransactionType) (from_user_id : Nat)
    (to_user_id : Nat) (amount : Int) (line_num : Nat) : Outcome Unit :=
  if amount ≤ 0 then
    .fail (.Parse ("Line " ++ toString line_num ++
      ": AMOUNT must be positive in CSV format, got " ++ toString amount))
  else
    match tx_type with
    | .Deposit =>
      if from_user_id ≠ 0 then
        .fail (.Parse ("Line " ++ toString line_num ++
          ": DEPOSIT must have FROM_USER_ID = 0, got " ++
          toString from_user_id))
      else .ok ()
    | .Withdrawal =>
      if to_user_id ≠ 0 then
        .fail (.Parse ("Line " ++ toString line_num ++
          ": WITHDRAWAL must have TO_USER_ID = 0, got " ++
          toString to_user_id))
      else .ok ()
    | .Transfer =>
      if from_user_id = 0 then
        .fail (.Parse ("Line " ++ toString line_num ++
          ": TRANSFER cannot have FROM_USER_ID = 0"))
      else if to_user_id = 0 then
        .fail (.Parse ("Line " ++ toString line_num ++
          ": TRANSFER cannot have TO_USER_ID = 0"))
      else .ok ()

/-- `CsvParser::parse_record` (src/csv_format.rs lines 214-296). The
source's numeric error messages append the `ParseIntError` rendering; the
claims never read those messages, so the cause text is omitted here. -/
def parse_record (fields : List (List Char)) (line_num : Nat) :
    Outcome Transaction :=
  if fields.length ≠ 8 then
    .fail (.Parse ("Line " ++ toString line_num ++ ": Expected 8 fields, got "
      ++ toString fields.length))
  else
    let f0 := fields.getD 0 []
    let f1 := fields.getD 1 []
    let f2 := fields.getD 2 []
    let f3 := fields.getD 3 []
    let f4 := fields.getD 4 []
    let f5 := fields.getD 5 []
    let f6 := fields.getD 6 []
    let f7 := fields.getD 7 []
    match parseU64 f0 with
    | none => .fail (.Parse ("Line " ++ toString line_num ++
        ": Invalid TX_ID '" ++ String.mk f0 ++ "'"))
    | some tx_id =>
      match txTypeOfToken f1 with
      | none => .fail (.Parse ("Line " ++ toString line_num ++
          ": Invalid TX_TYPE '" ++ String.mk f1 ++
          "', must be DEPOSIT, TRANSFER, or WITHDRAWAL"))
      | some tx_type =>
        match parseU64 f2 with
        | none => .fail (.Parse ("Line " ++ toString line_num ++
            ": Invalid FROM_USER_ID '" ++ String.mk f2 ++ "'"))
        | some from_user_id =>
          match parseU64 f3 with
          | none => .fail (.Parse ("Line " ++ toString line_num ++
              ": Invalid TO_USER_ID '" ++ String.mk f3 ++ "'"))
          | some to_user_id =>
            match parseI64 f4 with
            | none => .fail (.Parse ("Line " ++ toString line_num ++
                ": Invalid AMOUNT '" ++ String.mk f4 ++ "'"))
            | some amount =>
              match parseU64 f5 with
              | none => .fail (.Parse ("Line " ++ toString line_num ++
                  ": Invalid TIMESTAMP '" ++ String.mk f5 ++ "'"))
              | some timestamp =>
                match statusOfToken f6 with
                | none => .fail (.Parse ("Line " ++ toString line_num ++
                    ": Invalid STATUS '" ++ String.mk f6 ++
                    "', must be SUCCESS, FAILURE, or PENDING"))
                | some status =>
                  match unescape_description f7 with
                  | none => .panicked
                  | some description =>
                    (validate_record tx_type from_user_id to_user_id amount
                      line_num).map (fun _ =>
                        ⟨tx_id, tx_type, from_user_id, to_user_id, amount,
                          timestamp, status, description⟩)

/-- The data-line loop of `CsvParser::parse_records` (src/csv_format.rs
lines 39-48): `i` is the 0-based index of the current line, so errors name
line `i + 1`; blank lines are skipped. -/
def parseLoop : Nat → List (List Char) → Outcome (List Transaction)
  | _, [] => .ok []
  | i, line :: rest =>
    if (rustTrim line).isEmpty then parseLoop (i + 1) rest
    else
      (parse_line line (i + 1)).bind fun fields =>
        (parse_record fields (i + 1)).bind fun t =>
          (parseLoop (i + 1) rest).map (fun ts => t :: ts)

/-- `CsvParser::parse_records` (src/csv_format.rs lines 25-51). -/
def parse_records (content : List Char) : Outcome (List Transaction) :=
  let lines := rustLines content
  match lines with
  | [] => .ok []
  | l0 :: rest =>
    (parse_line l0 0).bind fun headers =>
      (validate_headers headers).bind fun _ =>
        parseLoop 1 rest

/-- The CSV header row (src/csv_format.rs lines 91-95). -/
def headerLine : List Char :=
  cs "TX_ID,TX_TYPE,FROM_USER_ID,TO_USER_ID,AMOUNT,TIMESTAMP,STATUS,DESCRIPTION"

/-- One written CSV data row (src/csv_format.rs lines 112-124). -/
def recordLine (t : Transaction) : List Char :=
  natToChars t.tx_id ++ [','] ++ txTypeToken t.tx_type ++ [','] ++
  natToChars t.from_user_id ++ [','] ++ natToChars t.to_user_id ++ [','] ++
  intToChars t.amount ++ [','] ++ natToChars t.timestamp ++ [','] ++
  statusToken t.status ++ [','] ++ escape_description t.description

/-- `CsvParser::write_records` (src/csv_format.rs lines 87-128), returning
the produced text; writing into an in-memory sink cannot fail. -/
def write_records (records : List Transaction) : List Char :=
  headerLine ++ '\n' :: (records.map (fun t => recordLine t ++ ['\n'])).flatten

end CsvParser

/-! ### CSV codec lemmas -/

/-- The §3 business rules, as the CSV and text readers check them. -/
def businessOk (t : Transaction) : Prop :=
  0 < t.amount ∧
  (t.tx_type = .Deposit → t.from_user_id = 0) ∧
  (t.tx_type = .Withdrawal → t.to_user_id = 0) ∧
  (t.tx_type = .Transfer → t.from_user_id ≠ 0 ∧ t.to_user_id ≠ 0)

instance (t : Transaction) : Decidable (businessOk t) := by
  unfold businessOk
  infer_instance

/-- A field without separators or quotes. -/
def plainTok (s : List Char) : Prop := ∀ c ∈ s, c ≠ ',' ∧ c ≠ '"'

theorem isAsciiDigit_plain {c : Char} (h : isAsciiDigit c = true) :
    c ≠ ',' ∧ c ≠ '"' := by
  have hb := isAsciiDigit_toNat h
  constructor
  · intro hc
    rw [hc] at hb
    simp at hb
  · intro hc
    rw [hc] at hb
    simp at hb

theorem natToChars_plainTok (n : Nat) : plainTok (natToChars n) :=
  fun c hc => isAsciiDigit_plain (natToChars_all_digit n c hc)

theorem intToChars_plainTok (a : Int) : plainTok (intToChars a) := by
  intro c hc
  unfold intToChars at hc
  split at hc
  · rcases List.mem_cons.mp hc with rfl | hc
    · exact ⟨by decide, by decide⟩
    · exact isAsciiDigit_plain (natToChars_all_digit _ c hc)
  · exact isAsciiDigit_plain (natToChars_all_digit _ c hc)

theorem txTypeToken_plainTok (ty : TransactionType) :
    plainTok (txTypeToken ty) := by
  cases ty <;> (intro c hc; fin_cases hc <;> exact ⟨by decide, by decide⟩)

theorem statusToken_plainTok (st : TransactionStatus) :
    plainTok (statusToken st) := by
  cases st <;> (intro c hc; fin_cases hc <;> exact ⟨by decide, by decide⟩)

theorem isAsciiDigit_not_ws {c : Char} (h : isAsciiDigit c = true) :
    rustIsWhitespace c = false := by
  have hb := isAsciiDigit_toNat h
  unfold rustIsWhitespace
  simp only [Bool.or_eq_false_iff, Bool.and_eq_false_iff,
    decide_eq_false_iff_not]
  omega

namespace CsvParser

/-- Scanning one character that is neither a quote nor a comma. -/
theorem parseLineAux_other (c : Char) (hc1 : c ≠ '"') (hc2 : c ≠ ',')
    (l cur : List Char) (fields : List (List Char)) (inq : Bool) :
    parseLineAux (c :: l) inq cur fields =
      parseLineAux l inq (cur ++ [c]) fields :=
  parseLineAux.eq_6 inq cur fields c l (fun h => hc2 h) (fun h _ => hc1 h)
    (fun _ h _ _ => hc1 h) (fun h _ => hc1 h)

/-- Scanning a separator-free, quote-free token extends the current
field. -/
theorem parseLineAux_plain (tok : List Char) (hp : plainTok tok)
    (rest : List Char) (cur : List Char) (fields : List (List Char)) :
    parseLineAux (tok ++ rest) false cur fields =
      parseLineAux rest false (cur ++ tok) fields := by
  induction tok generalizing cur with
  | nil => simp
  | cons c cs ih =>
    obtain ⟨hcomma, hquote⟩ := hp c (List.mem_cons_self c cs)
    have hcs : plainTok cs := fun x hx => hp x (List.mem_cons_of_mem c hx)
    show parseLineAux (c :: (cs ++ rest)) false cur fields = _
    rw [parseLineAux_other c hquote hcomma, ih hcs]
    simp

/-- An unquoted comma ends the current field. -/
theorem parseLineAux_comma (l cur : List Char) (fields : List (List Char)) :
    parseLineAux (',' :: l) false cur fields =
      parseLineAux l false [] (fields ++ [cur]) := by
  rw [parseLineAux.eq_5]
  simp

/-- An opening quote only flips the flag. -/
theorem parseLineAux_open (l cur : List Char) (fields : List (List Char)) :
    parseLineAux ('"' :: l) false cur fields =
      parseLineAux l true cur fields :=
  parseLineAux.eq_2 cur fields l

/-- The escaped body `escape_description` wraps in quotes. -/
def escBody (d : List Char) : List Char :=
  (d.map (fun c => if c = '"' then ['"', '"'] else [c])).flatten

theorem escape_description_eq (d : List Char) :
    escape_description d = '"' :: (escBody d ++ ['"']) := by
  unfold escape_description escBody
  simp

@[simp] theorem escBody_nil : escBody [] = [] := rfl

theorem escBody_cons (c : Char) (cs : List Char) :
    escBody (c :: cs) = (if c = '"' then ['"', '"'] else [c]) ++ escBody cs
    := by
  unfold escBody
  simp

/-- Inside quotes, scanning the escaped body of `d` and the closing quote
at end of line accumulates exactly `d` and closes the quotes. -/
theorem parseLineAux_quoted (d : List Char) (cur : List Char)
    (fields : List (List Char)) :
    parseLineAux (escBody d ++ ['"']) true cur fields =
      (fields ++ [cur ++ d], false) := by
  induction d generalizing cur with
  | nil =>
    show parseLineAux ('"' :: []) true cur fields = _
    rw [parseLineAux.eq_4 cur fields [] (by intro r h; cases h),
      parseLineAux.eq_1]
    simp
  | cons c cs ih =>
    rw [escBody_cons]
    by_cases hc : c = '"'
    · subst hc
      rw [if_pos rfl]
      show parseLineAux ('"' :: '"' :: (escBody cs ++ ['"'])) true cur
        fields = _
      rw [parseLineAux.eq_3, ih (cur ++ ['"'])]
      simp
    · by_cases hcc : c = ','
      · subst hcc
        rw [if_neg hc]
        show parseLineAux (',' :: (escBody cs ++ ['"'])) true cur fields = _
        rw [parseLineAux.eq_5]
        simp only [reduceIte]
        rw [ih (cur ++ [','])]
        simp
      · rw [if_neg hc]
        show parseLineAux (c :: (escBody cs ++ ['"'])) true cur fields = _
        rw [parseLineAux_other c hc hcc, ih (cur ++ [c])]
        simp

theorem txTypeOfToken_txTypeToken (ty : TransactionType) :
    txTypeOfToken (txTypeToken ty) = some ty := by
  cases ty <;> rfl

theorem statusOfToken_statusToken (st : TransactionStatus) :
    statusOfToken (statusToken st) = some st := by
  cases st <;> rfl

theorem validate_record_ok (ty : TransactionType) (fr tu : Nat)
    (amount : Int) (n : Nat) (hamt : 0 < amount)
    (hdep : ty = .Deposit → fr = 0) (hwdr : ty = .Withdrawal → tu = 0)
    (htr : ty = .Transfer → fr ≠ 0 ∧ tu ≠ 0) :
    validate_record ty fr tu amount n = .ok () := by
  unfold validate_record
  rw [if_neg (by omega)]
  cases ty with
  | Deposit => simp [hdep rfl]
  | Transfer =>
    obtain ⟨h1, h2⟩ := htr rfl
    simp [h1, h2]
  | Withdrawal => simp [hwdr rfl]

/-- Decoding the eight written fields reconstructs the transaction. -/
theorem parse_record_fields (t : Transaction) (n : Nat) (hwf : t.wf)
    (hbiz : businessOk t)
    (hdesc : unescape_description t.description = some t.description) :
    parse_record [natToChars t.tx_id, txTypeToken t.tx_type,
      natToChars t.from_user_id, natToChars t.to_user_id,
      intToChars t.amount, natToChars t.timestamp, statusToken t.status,
      t.description] n = .ok t := by
  obtain ⟨hid, hfrom, hto, hts, halo, hahi⟩ := hwf
  unfold parse_record
  rw [if_neg (by simp)]
  simp only [List.getD_cons_zero, List.getD_cons_succ]
  simp only [parseU64_natToChars hid, parseU64_natToChars hfrom,
    parseU64_natToChars hto, parseU64_natToChars hts,
    parseI64_intToChars halo hahi, txTypeOfToken_txTypeToken,
    statusOfToken_statusToken, hdesc,
    validate_record_ok t.tx_type t.from_user_id t.to_user_id t.amount n
      hbiz.1 hbiz.2.1 hbiz.2.2.1 hbiz.2.2.2]
  rfl

/-- Scanning a written record line recovers the eight written fields. -/
theorem parse_line_recordLine (t : Transaction) (n : Nat) :
    parse_line (recordLine t) n =
      .ok [natToChars t.tx_id, txTypeToken t.tx_type,
        natToChars t.from_user_id, natToChars t.to_user_id,
        intToChars t.amount, natToChars t.timestamp, statusToken t.status,
        t.description] := by
  unfold parse_line recordLine
  rw [escape_description_eq]
  simp only [List.append_assoc, List.singleton_append, List.cons_append,
    List.nil_append]
  rw [parseLineAux_plain (natToChars t.tx_id) (natToChars_plainTok _),
    parseLineAux_comma,
    parseLineAux_plain (txTypeToken t.tx_type) (txTypeToken_plainTok _),
    parseLineAux_comma,
    parseLineAux_plain (natToChars t.from_user_id) (natToChars_plainTok _),
    parseLineAux_comma,
    parseLineAux_plain (natToChars t.to_user_id) (natToChars_plainTok _),
    parseLineAux_comma,
    parseLineAux_plain (intToChars t.amount) (intToChars_plainTok _),
    parseLineAux_comma,
    parseLineAux_plain (natToChars t.timestamp) (natToChars_plainTok _),
    parseLineAux_comma,
    parseLineAux_plain (statusToken t.status) (statusToken_plainTok _),
    parseLineAux_comma, parseLineAux_open,
    parseLineAux_quoted t.description]
  simp

theorem dropWhile_append_last {p : Char → Bool} (xs : List Char) (c : Char)
    (hc : p c = false) : (xs ++ [c]).dropWhile p ≠ [] := by
  induction xs with
  | nil => simp [List.dropWhile, hc]
  | cons x xs ih =>
    by_cases hx : p x
    · simpa [List.dropWhile, hx] using ih
    · simp [List.dropWhile, hx]

theorem rustTrim_cons_ne_nil (c : Char) (l : List Char)
    (hc : rustIsWhitespace c = false) : rustTrim (c :: l) ≠ [] := by
  unfold rustTrim rustTrimStart rustTrimEnd
  rw [List.dropWhile_cons_of_neg (by simp [hc])]
  have : (c :: l).reverse = l.reverse ++ [c] := by simp
  rw [this]
  simp only [ne_eq, List.reverse_eq_nil_iff]
  exact dropWhile_append_last l.reverse c hc

theorem recordLine_head (t : Transaction) :
    ∃ c cest, recordLine t = c :: cest ∧ isAsciiDigit c = true := by
  obtain ⟨c, cst, hc, hd⟩ := natToChars_head_digit t.tx_id
  refine ⟨c, cst ++ ([','] ++ (txTypeToken t.tx_type ++ ([','] ++
    (natToChars t.from_user_id ++ ([','] ++ (natToChars t.to_user_id ++
    ([','] ++ (intToChars t.amount ++ ([','] ++ (natToChars t.timestamp ++
    ([','] ++ (statusToken t.status ++ ([','] ++
    escape_description t.description))))))))))))), ?_, hd⟩
  unfold recordLine
  rw [hc]
  simp [List.append_assoc]

theorem recordLine_not_blank (t : Transaction) :
    (rustTrim (recordLine t)).isEmpty = false := by
  obtain ⟨c, cest, hc, hd⟩ := recordLine_head t
  rw [hc]
  have := rustTrim_cons_ne_nil c cest (isAsciiDigit_not_ws hd)
  simpa [List.isEmpty_iff] using this

theorem mem_escape_description {c : Char} {d : List Char}
    (h : c ∈ escape_description d) : c = '"' ∨ c ∈ d := by
  rw [escape_description_eq] at h
  rcases List.mem_cons.mp h with rfl | h
  · exact Or.inl rfl
  · rcases List.mem_append.mp h with h | h
    · unfold escBody at h
      rw [List.mem_flatten] at h
      obtain ⟨l, hl, hcl⟩ := h
      rw [List.mem_map] at hl
      obtain ⟨x, hx, hxl⟩ := hl
      by_cases hq : x = '"'
      · rw [← hxl] at hcl
        simp [hq] at hcl
        exact Or.inl hcl
      · rw [← hxl] at hcl
        simp [hq] at hcl
        exact Or.inr (hcl ▸ hx)
    · simp at h
      exact Or.inl h

theorem newline_not_mem_recordLine (t : Transaction)
    (hnl : '\n' ∉ t.description) : '\n' ∉ recordLine t := by
  have h1 : '\n' ∉ natToChars t.tx_id :=
    fun h => absurd (natToChars_all_digit _ _ h) (by decide)
  have h2 : '\n' ∉ natToChars t.from_user_id :=
    fun h => absurd (natToChars_all_digit _ _ h) (by decide)
  have h3 : '\n' ∉ natToChars t.to_user_id :=
    fun h => absurd (natToChars_all_digit _ _ h) (by decide)
  have h4 : '\n' ∉ natToChars t.timestamp :=
    fun h => absurd (natToChars_all_digit _ _ h) (by decide)
  have hint : '\n' ∉ intToChars t.amount := by
    intro h
    unfold intToChars at h
    split at h
    · rcases List.mem_cons.mp h with h | h
      · exact absurd h (by decide)
      · exact absurd (natToChars_all_digit _ _ h) (by decide)
    · exact absurd (natToChars_all_digit _ _ h) (by decide)
  have hty : '\n' ∉ txTypeToken t.tx_type := by
    cases t.tx_type <;> decide
  have hst : '\n' ∉ statusToken t.status := by
    cases t.status <;> decide
  have hesc : '\n' ∉ escape_description t.description := by
    intro h
    rcases mem_escape_description h with h | h
    · exact absurd h (by decide)
    · exact hnl h
  intro hmem
  unfold recordLine at hmem
  simp only [List.mem_append, List.mem_cons, List.not_mem_nil, or_false]
    at hmem
  simp [h1, h2, h3, h4, hint, hty, hst, hesc] at hmem

theorem recordLine_getLast (t : Transaction) :
    (recordLine t).getLast? = some '"' := by
  unfold recordLine
  rw [escape_description_eq]
  rw [List.getLast?_append_of_ne_nil _ (by simp)]
  rw [show ('"' :: (escBody t.description ++ ['"'])) =
    ('"' :: escBody t.description) ++ ['"'] from by simp]
  exact List.getLast?_concat _

theorem rustLines_flattenRecords :
    ∀ (ts : List Transaction), (∀ t ∈ ts, '\n' ∉ t.description) →
      rustLines ((ts.map (fun t => recordLine t ++ ['\n'])).flatten) =
        ts.map recordLine := by
  intro ts
  induction ts with
  | nil => intro _; rfl
  | cons t ts ih =>
    intro hnl
    simp only [List.map_cons, List.flatten_cons, List.append_assoc,
      List.singleton_append]
    rw [rustLines_append_nl _ _
      (newline_not_mem_recordLine t (hnl t (List.mem_cons_self t ts)))]
    rw [stripTrailingCR_eq_self _ (by rw [recordLine_getLast]; simp)]
    rw [ih (fun x hx => hnl x (List.mem_cons_of_mem t hx))]

/-- The written CSV text splits back into the header line and one line per
record, provided no description embeds a newline. -/
theorem rustLines_write (ts : List Transaction)
    (hnl : ∀ t ∈ ts, '\n' ∉ t.description) :
    rustLines (write_records ts) = headerLine :: ts.map recordLine := by
  unfold write_records
  rw [rustLines_append_nl _ _ (by decide)]
  rw [show stripTrailingCR headerLine = headerLine from by decide]
  rw [rustLines_flattenRecords ts hnl]

theorem parseLoop_map :
    ∀ (ts : List Transaction) (i : Nat), (∀ t ∈ ts, t.wf) →
      (∀ t ∈ ts, businessOk t) →
      (∀ t ∈ ts, unescape_description t.description = some t.description) →
      parseLoop i (ts.map recordLine) = .ok ts := by
  intro ts
  induction ts with
  | nil => intro i _ _ _; rfl
  | cons t ts ih =>
    intro i hwf hbiz hdesc
    have hmem := List.mem_cons_self t ts
    show parseLoop i (recordLine t :: ts.map recordLine) = _
    unfold parseLoop
    rw [if_neg (by simp [recordLine_not_blank t])]
    rw [parse_line_recordLine t (i + 1)]
    simp only [Outcome.bind_ok]
    rw [parse_record_fields t (i + 1) (hwf t hmem) (hbiz t hmem)
      (hdesc t hmem)]
    simp only [Outcome.bind_ok]
    rw [ih (i + 1) (fun x hx => hwf x (List.mem_cons_of_mem t hx))
      (fun x hx => hbiz x (List.mem_cons_of_mem t hx))
      (fun x hx => hdesc x (List.mem_cons_of_mem t hx))]
    rfl

/-- The CSV round trip: writing then parsing a list of well-formed,
business-rule-respecting records whose descriptions embed no newline and
are fixed points of the reader's extra unescaping step reproduces the
list. -/
theorem csv_roundtrip (ts : List Transaction)
    (hwf : ∀ t ∈ ts, t.wf) (hbiz : ∀ t ∈ ts, businessOk t)
    (hnl : ∀ t ∈ ts, '\n' ∉ t.description)
    (hdesc : ∀ t ∈ ts,
      unescape_description t.description = some t.description) :
    parse_records (write_records ts) = .ok ts := by
  unfold parse_records
  rw [rustLines_write ts hnl]
  dsimp only
  rw [show parse_line headerLine 0 = .ok expectedHeaders from by decide]
  simp only [Outcome.bind_ok]
  rw [show validate_headers expectedHeaders = .ok () from by decide]
  simp only [Outcome.bind_ok]
  exact parseLoop_map ts 1 hwf hbiz hdesc

end CsvParser

/-! ## Text codec (src/txt_format.rs) -/

/-- The `HashMap<String, String>` accumulator, as an association list. The
text and MT940 codecs use only key lookup, key insertion, emptiness, and
clearing, none of which see the hash order. -/
def mapContains (m : List (List Char × List Char)) (k : List Char) : Bool :=
  m.any (fun p => p.1 = k)

def mapGet (m : List (List Char × List Char)) (k : List Char) :
    Option (List Char) :=
  (m.find? (fun p => p.1 = k)).map (fun p => p.2)

def mapInsert (m : List (List Char × List Char)) (k v : List Char) :
    List (List Char × List Char) :=
  m ++ [(k, v)]

/-- Split at the first occurrence of `sep` (Rust `splitn(2, sep)`);
`none` when `sep` does not occur. -/
def splitAtFirst (sep : Char) : List Char → Option (List Char × List Char)
  | [] => none
  | c :: rest =>
    if c = sep then some ([], rest)
    else (splitAtFirst sep rest).map (fun p => (c :: p.1, p.2))

/-- Rust `char::to_uppercase`, restricted to ASCII. The source performs
full Unicode uppercasing; this map agrees with it on ASCII characters, and
every theorem below applies it to ASCII-only values. -/
def rustToUppercase (s : List Char) : List Char :=
  s.map (fun c =>
    if 'a' ≤ c ∧ c ≤ 'z' then Char.ofNat (c.toNat - 32) else c)

/-- `{:?}` (Debug) rendering of `TransactionType` for the text writer's
comment lines. -/
def debugTxType : TransactionType → List Char
  | .Deposit => cs "Deposit"
  | .Transfer => cs "Transfer"
  | .Withdrawal => cs "Withdrawal"

namespace TextParser

/-- `TextParser::escape_description` (src/txt_format.rs lines 385-387):
replace `"` by `\"`. -/
def escape_description (description : List Char) : List Char :=
  (description.map (fun c => if c = '"' then ['\\', '"'] else [c])).flatten

/-- `TextParser::unescape_description` (src/txt_format.rs lines 389-391):
replace the two-character sequence `\"` by `"`, leftmost first; `\\` is not
special. -/
def unescape_description : List Char → List Char
  | [] => []
  | '\\' :: '"' :: rest => '"' :: unescape_description rest
  | c :: rest => c :: unescape_description rest

/-- `TextParser::parse_key_value` (src/txt_format.rs lines 139-160). -/
def parse_key_value (line : List Char) (line_number : Nat) :
    Outcome (List Char × List Char) :=
  match splitAtFirst ':' line with
  | none =>
    .fail (.Parse ("Line " ++ toString line_number ++
      ": expected 'KEY: VALUE' format, got '" ++ String.mk line ++ "'"))
  | some (before, after) =>
    let key := rustTrim before
    let value := rustTrim after
    if key.isEmpty then
      .fail (.Parse ("Line " ++ toString line_number ++ ": empty key"))
    else .ok (key, value)

/-- `TextParser::parse_u64_field` (src/txt_format.rs lines 209-224). The
`ParseIntError` cause appended by the source is omitted from the message;
no claim reads it. -/
def parse_u64_field (fields : List (List Char × List Char))
    (field_name : List Char) (line_number : Nat) : Outcome Nat :=
  match mapGet fields field_name with
  | none =>
    .fail (.Parse ("Field " ++ String.mk field_name ++ " not found"))
  | some value =>
    match parseU64 value with
    | none =>
      .fail (.Parse ("Line " ++ toString line_number ++ ": invalid " ++
        String.mk field_name ++ " '" ++ String.mk value ++ "'"))
    | some n => .ok n

/-- `TextParser::parse_i64_field` (src/txt_format.rs lines 226-252): strip
a trailing `#` comment, parse, and require a strictly positive value. -/
def parse_i64_field (fields : List (List Char × List Char))
    (field_name : List Char) (line_number : Nat) : Outcome Int :=
  match mapGet fields field_name with
  | none =>
    .fail (.Parse ("Field " ++ String.mk field_name ++ " not found"))
  | some value =>
    let clean_value := rustTrim (value.takeWhile (fun c => c ≠ '#'))
    match parseI64 clean_value with
    | none =>
      .fail (.Parse ("Line " ++ toString line_number ++ ": invalid " ++
        String.mk field_name ++ " '" ++ String.mk clean_value ++ "'"))
    | some amount =>
      if amount ≤ 0 then
        .fail (.Parse ("Line " ++ toString line_number ++ ": " ++
          String.mk field_name ++ " must be positive, got " ++
          toString amount))
      else .ok amount

/-- `TextParser::parse_tx_type` (src/txt_format.rs lines 254-271): the
value is uppercased before comparison. -/
def parse_tx_type (fields : List (List Char × List Char))
    (line_number : Nat) : Outcome TransactionType :=
  match mapGet fields (cs "TX_TYPE") with
  | none => .fail (.Parse "Field TX_TYPE not found")
  | some value =>
    let upper := rustToUppercase value
    if upper = cs "DEPOSIT" then .ok .Deposit
    else if upper = cs "TRANSFER" then .ok .Transfer
    else if upper = cs "WITHDRAWAL" then .ok .Withdrawal
    else
      .fail (.Parse ("Line " ++ toString line_number ++
        ": invalid TX_TYPE '" ++ String.mk upper ++
        "', must be DEPOSIT, TRANSFER, or WITHDRAWAL"))

/-- `TextParser::parse_status` (src/txt_format.rs lines 273-290): the value
is uppercased before comparison. -/
def parse_status (fields : List (List Char × List Char))
    (line_number : Nat) : Outcome TransactionStatus :=
  match mapGet fields (cs "STATUS") with
  | none => .fail (.Parse "Field STATUS not found")
  | some value =>
    let upper := rustToUppercase value
    if upper = cs "SUCCESS" then .ok .Success
    else if upper = cs "FAILURE" then .ok .Failure
    else if upper = cs "PENDING" then .ok .Pending
    else
      .fail (.Parse ("Line " ++ toString line_number ++
        ": invalid STATUS '" ++ String.mk upper ++
        "', must be SUCCESS, FAILURE, or PENDING"))

/-- `TextParser::parse_description` (src/txt_format.rs lines 292-324):
requires surrounding double quotes; the explicit `len < 2` guard makes the
single-`"` value an error here, not a panic. -/
def parse_description (fields : List (List Char × List Char))
    (line_number : Nat) : Outcome (List Char) :=
  match mapGet fields (cs "DESCRIPTION") with
  | none => .fail (.Parse "Field DESCRIPTION not found")
  | some value =>
    let trimmed := rustTrim value
    if ¬(trimmed.head? = some '"' ∧ trimmed.getLast? = some '"') then
      .fail (.Parse ("Line " ++ toString line_number ++
        ": DESCRIPTION must be in double quotes, got '" ++ String.mk value
        ++ "'"))
    else if trimmed.length < 2 then
      .fail (.Parse ("Line " ++ toString line_number ++
        ": DESCRIPTION too short, must be at least 2 characters for quotes"))
    else .ok (unescape_description ((trimmed.drop 1).dropLast))

/-- `TextParser::validate_record` (src/txt_format.rs lines 326-367): the
user-id business rules; the amount is not checked here (it was already
checked in `parse_i64_field`). -/
def validate_record (tx_type : TransactionType) (from_user_id : Nat)
    (to_user_id : Nat) (line_number : Nat) : Outcome Unit :=
  match tx_type with
  | .Deposit =>
    if from_user_id ≠ 0 then
      .fail (.Parse ("Line " ++ toString line_number ++
        ": DEPOSIT must have FROM_USER_ID = 0, got " ++
        toString from_user_id))
    else .ok ()
  | .Withdrawal =>
    if to_user_id ≠ 0 then
      .fail (.Parse ("Line " ++ toString line_number ++
        ": WITHDRAWAL must have TO_USER_ID = 0, got " ++
        toString to_user_id))
    else .ok ()
  | .Transfer =>
    if from_user_id = 0 then
      .fail (.Parse ("Line " ++ toString line_number ++
        ": TRANSFER cannot have FROM_USER_ID = 0"))
    else if to_user_id = 0 then
      .fail (.Parse ("Line " ++ toString line_number ++
        ": TRANSFER cannot have TO_USER_ID = 0"))
    else .ok ()

/-- The required-key list of `TextParser::parse_record`. -/
def requiredFields : List (List Char) :=
  [cs "TX_ID", cs "TX_TYPE", cs "FROM_USER_ID", cs "TO_USER_ID",
    cs "AMOUNT", cs "TIMESTAMP", cs "STATUS", cs "DESCRIPTION"]

/-- The missing-key loop of `TextParser::parse_record`
(src/txt_format.rs lines 177-184). -/
def checkRequired (fields : List (List Char × List Char)) :
    List (List Char) → Outcome Unit
  | [] => .ok ()
  | f :: fs =>
    if ¬ mapContains fields f then
      .fail (.Parse ("Missing required field: " ++ String.mk f))
    else checkRequired fields fs

/-- `TextParser::parse_record` (src/txt_format.rs lines 162-207). -/
def parse_record (fields : List (List Char × List Char))
    (line_number : Nat) : Outcome Transaction :=
  (checkRequired fields requiredFields).bind fun _ =>
    (parse_u64_field fields (cs "TX_ID") line_number).bind fun tx_id =>
      (parse_tx_type fields line_number).bind fun tx_type =>
        (parse_u64_field fields (cs "FROM_USER_ID") line_number).bind
          fun from_user_id =>
          (parse_u64_field fields (cs "TO_USER_ID") line_number).bind
            fun to_user_id =>
            (parse_i64_field fields (cs "AMOUNT") line_number).bind
              fun amount =>
              (parse_u64_field fields (cs "TIMESTAMP") line_number).bind
                fun timestamp =>
                (parse_status fields line_number).bind fun status =>
                  (parse_description fields line_number).bind
                    fun description =>
                    (validate_record tx_type from_user_id to_user_id
                      line_number).map fun _ =>
                      ⟨tx_id, tx_type, from_user_id, to_user_id, amount,
                        timestamp, status, description⟩

/-- The line loop of `TextParser::parse_records` (src/txt_format.rs lines
30-70): `ln` counts the lines already consumed, so the current line is
`ln + 1`; at end of input a pending record is flushed with the last line
number. -/
def parseRecordsLoop : Nat → List (List Char) →
    List (List Char × List Char) → Outcome (List Transaction)
  | ln, [], current =>
    if current.isEmpty then .ok []
    else (parse_record current ln).map (fun t => [t])
  | ln, line :: rest, current =>
    let line_number := ln + 1
    let trimmed := rustTrim line
    if trimmed.isEmpty then
      if ¬ current.isEmpty then
        (parse_record current line_number).bind fun t =>
          (parseRecordsLoop line_number rest []).map (fun ts => t :: ts)
      else parseRecordsLoop line_number rest []
    else if trimmed.head? = some '#' then
      parseRecordsLoop line_number rest current
    else
      (parse_key_value trimmed line_number).bind fun kv =>
        if mapContains current kv.1 then
          .fail (.Parse ("Line " ++ toString line_number ++
            ": duplicate field '" ++ String.mk kv.1 ++ "'"))
        else parseRecordsLoop line_number rest (mapInsert current kv.1 kv.2)

/-- `TextParser::parse_records` (src/txt_format.rs lines 27-71). -/
def parse_records (content : List Char) : Outcome (List Transaction) :=
  parseRecordsLoop 0 (rustLines content) []

/-- The lines one record contributes to the text output
(src/txt_format.rs lines 111-134), newline-terminated. -/
def recordLines (i : Nat) (t : Transaction) : List Char :=
  cs "# Record " ++ natToChars (i + 1) ++ cs " (" ++ debugTxType t.tx_type
    ++ cs ")" ++ ['\n'] ++
  cs "TX_ID: " ++ natToChars t.tx_id ++ ['\n'] ++
  cs "TX_TYPE: " ++ txTypeToken t.tx_type ++ ['\n'] ++
  cs "FROM_USER_ID: " ++ natToChars t.from_user_id ++ ['\n'] ++
  cs "TO_USER_ID: " ++ natToChars t.to_user_id ++ ['\n'] ++
  cs "AMOUNT: " ++ intToChars t.amount ++ ['\n'] ++
  cs "TIMESTAMP: " ++ natToChars t.timestamp ++ ['\n'] ++
  cs "STATUS: " ++ statusToken t.status ++ ['\n'] ++
  cs "DESCRIPTION: " ++ ['"'] ++ escape_description t.description ++ ['"']
    ++ ['\n']

/-- `TextParser::write_records` (src/txt_format.rs lines 107-137): one
blank line between records, none before the first. -/
def write_records (records : List Transaction) : List Char :=
  (records.enum.map (fun p =>
    (if 0 < p.1 then ['\n'] else []) ++ recordLines p.1 p.2)).flatten

end TextParser

/-! ### Text codec lemmas -/

theorem rustTrimStart_eq_self {l : List Char}
    (h : ∀ c ∈ l.head?, rustIsWhitespace c = false) : rustTrimStart l = l := by
  cases l with
  | nil => rfl
  | cons c m =>
    exact List.dropWhile_cons_of_neg (by simp [h c rfl])

theorem rustTrimEnd_eq_self {l : List Char}
    (h : ∀ c ∈ l.getLast?, rustIsWhitespace c = false) :
    rustTrimEnd l = l := by
  unfold rustTrimEnd
  cases hl : l.reverse with
  | nil => simp [List.reverse_eq_nil_iff.mp hl]
  | cons c m =>
    have hc : l.getLast? = some c := by
      rw [← List.head?_reverse, hl]
      rfl
    rw [List.dropWhile_cons_of_neg (by simp [h c hc])]
    rw [← hl, List.reverse_reverse]

/-- A list whose first and last characters are not whitespace is its own
trim. -/
theorem rustTrim_eq_self {l : List Char}
    (h1 : ∀ c ∈ l.head?, rustIsWhitespace c = false)
    (h2 : ∀ c ∈ l.getLast?, rustIsWhitespace c = false) :
    rustTrim l = l := by
  unfold rustTrim
  rw [rustTrimStart_eq_self h1, rustTrimEnd_eq_self h2]

theorem rustTrim_cons_space (l : List Char) :
    rustTrim (' ' :: l) = rustTrim l := by
  unfold rustTrim rustTrimStart
  rw [List.dropWhile_cons_of_pos (by decide)]

theorem splitAtFirst_append (sep : Char) (key after : List Char)
    (h : sep ∉ key) :
    splitAtFirst sep (key ++ sep :: after) = some (key, after) := by
  induction key with
  | nil => simp [splitAtFirst]
  | cons c m ih =>
    have hc : c ≠ sep := fun hc => h (hc ▸ List.mem_cons_self c m)
    have hm : sep ∉ m := fun hm => h (List.mem_cons_of_mem c hm)
    simp only [List.cons_append, splitAtFirst, if_neg hc]
    rw [show m.append (sep :: after) = m ++ sep :: after from rfl, ih hm]
    rfl

theorem isAsciiDigit_ne_nl {c : Char} (h : isAsciiDigit c = true) :
    c ≠ '\n' ∧ c ≠ '\r' ∧ c ≠ ':' ∧ c ≠ '#' := by
  have hb := isAsciiDigit_toNat h
  refine ⟨?_, ?_, ?_, ?_⟩ <;> (intro hc; rw [hc] at hb; simp at hb)

theorem natToChars_getLast?_digit (n : Nat) :
    ∀ c ∈ (natToChars n).getLast?, isAsciiDigit c = true := by
  intro c hc
  exact natToChars_all_digit n c (List.mem_of_mem_getLast? hc)

theorem intToChars_ne_nil (a : Int) : intToChars a ≠ [] := by
  unfold intToChars
  split
  · simp
  · exact natToChars_ne_nil _

theorem intToChars_getLast?_digit (a : Int) :
    ∀ c ∈ (intToChars a).getLast?, isAsciiDigit c = true := by
  intro c hc
  unfold intToChars at hc
  split at hc
  · rw [show ('-' :: natToChars a.natAbs) = ['-'] ++ natToChars a.natAbs
      from rfl,
      List.getLast?_append_of_ne_nil _ (natToChars_ne_nil _)] at hc
    exact natToChars_getLast?_digit _ c hc
  · exact natToChars_getLast?_digit _ c hc

namespace TextParser

theorem txtEscape_nil : escape_description [] = [] := rfl

theorem txtEscape_cons (x : Char) (m : List Char) :
    escape_description (x :: m) =
      (if x = '"' then ['\\', '"'] else [x]) ++ escape_description m := by
  unfold escape_description
  simp

theorem mem_txtEscape {c : Char} {d : List Char}
    (h : c ∈ escape_description d) : c ∈ d ∨ c = '\\' ∨ c = '"' := by
  unfold escape_description at h
  simp only [List.mem_flatten, List.mem_map] at h
  obtain ⟨_, ⟨x, hx, rfl⟩, hc⟩ := h
  by_cases hq : x = '"'
  · rw [if_pos hq] at hc
    simp at hc
    rcases hc with rfl | rfl
    · exact Or.inr (Or.inl rfl)
    · exact Or.inr (Or.inr rfl)
  · rw [if_neg hq] at hc
    simp at hc
    exact Or.inl (hc ▸ hx)

/-- The escaped form never starts with a bare double quote: an original
quote gains a leading backslash. -/
theorem txtEscape_head_ne_quote (d : List Char) :
    ∀ c ∈ (escape_description d).head?, c ≠ '"' := by
  cases d with
  | nil => intro c hc; simp [txtEscape_nil] at hc
  | cons x m =>
    intro c hc
    rw [txtEscape_cons] at hc
    by_cases hq : x = '"'
    · rw [if_pos hq] at hc
      have hcb : '\\' = c := by simpa using hc
      subst hcb
      decide
    · rw [if_neg hq] at hc
      have hcb : x = c := by simpa using hc
      subst hcb
      exact hq

theorem txtUnescape_cons (x : Char) (l : List Char)
    (h : x = '\\' → l.head? ≠ some '"') :
    unescape_description (x :: l) = x :: unescape_description l := by
  by_cases hx : x = '\\'
  · subst hx
    cases l with
    | nil => rfl
    | cons y r =>
      by_cases hy : y = '"'
      · exact absurd (by simp [hy]) (h rfl)
      · exact unescape_description.eq_3 '\\' (y :: r)
          (fun r2 _ h2 => by injection h2 with h3 h4; exact hy h3)
  · cases l with
    | nil =>
      exact unescape_description.eq_3 x [] (fun r2 _ h2 => by simp at h2)
    | cons y r =>
      exact unescape_description.eq_3 x (y :: r) (fun r2 hx2 _ => hx hx2)

/-- The text writer's backslash escaping and the reader's unescaping are
inverse. -/
theorem txtUnescape_txtEscape (d : List Char) :
    unescape_description (escape_description d) = d := by
  induction d with
  | nil => rfl
  | cons x m ih =>
    rw [txtEscape_cons]
    by_cases hq : x = '"'
    · subst hq
      rw [if_pos rfl]
      show unescape_description ('\\' :: '"' :: escape_description m) = _
      rw [unescape_description.eq_2, ih]
    · rw [if_neg hq, List.singleton_append]
      have hhead : x = '\\' → (escape_description m).head? ≠ some '"' := by
        intro _ hh
        exact txtEscape_head_ne_quote m '"' hh rfl
      rw [txtUnescape_cons x (escape_description m) hhead, ih]

/-- The nine lines of one written record, without their newlines. -/
def recordLinesList (i : Nat) (t : Transaction) : List (List Char) :=
  [cs "# Record " ++ natToChars (i + 1) ++ cs " (" ++ debugTxType t.tx_type
      ++ cs ")",
    cs "TX_ID: " ++ natToChars t.tx_id,
    cs "TX_TYPE: " ++ txTypeToken t.tx_type,
    cs "FROM_USER_ID: " ++ natToChars t.from_user_id,
    cs "TO_USER_ID: " ++ natToChars t.to_user_id,
    cs "AMOUNT: " ++ intToChars t.amount,
    cs "TIMESTAMP: " ++ natToChars t.timestamp,
    cs "STATUS: " ++ statusToken t.status,
    cs "DESCRIPTION: " ++ '"' :: (escape_description t.description ++ ['"'])]

/-- Join lines with a newline after each. -/
def linesJoin (ls : List (List Char)) : List Char :=
  (ls.map (fun l => l ++ ['\n'])).flatten

theorem linesJoin_append (a b : List (List Char)) :
    linesJoin (a ++ b) = linesJoin a ++ linesJoin b := by
  unfold linesJoin
  simp

theorem recordLines_eq_linesJoin (i : Nat) (t : Transaction) :
    recordLines i t = linesJoin (recordLinesList i t) := by
  unfold recordLines recordLinesList linesJoin
  simp [List.append_assoc]

/-- The line sequence of the whole written file: a blank separator before
every record but the first. -/
def textLinesList : Nat → List Transaction → List (List Char)
  | _, [] => []
  | i, t :: ts =>
    (if 0 < i then [([] : List Char)] else []) ++ recordLinesList i t ++
      textLinesList (i + 1) ts

theorem write_flatten_eq_linesJoin : ∀ (ts : List Transaction) (i : Nat),
    (List.flatten ((List.enumFrom i ts).map (fun p =>
      (if 0 < p.1 then ['\n'] else []) ++ recordLines p.1 p.2))) =
      linesJoin (textLinesList i ts) := by
  intro ts
  induction ts with
  | nil => intro i; rfl
  | cons t ts ih =>
    intro i
    rw [List.enumFrom_cons]
    simp only [List.map_cons, List.flatten_cons]
    rw [ih (i + 1), recordLines_eq_linesJoin]
    show (if 0 < i then ['\n'] else []) ++ linesJoin (recordLinesList i t)
        ++ linesJoin (textLinesList (i + 1) ts) =
      linesJoin ((if 0 < i then [([] : List Char)] else []) ++
        recordLinesList i t ++ textLinesList (i + 1) ts)
    rw [linesJoin_append, linesJoin_append]
    by_cases hi : 0 < i
    · simp [hi, linesJoin]
    · simp [hi, linesJoin]

theorem write_records_eq_linesJoin (ts : List Transaction) :
    write_records ts = linesJoin (textLinesList 0 ts) := by
  unfold write_records
  exact write_flatten_eq_linesJoin ts 0

theorem rustLines_linesJoin : ∀ (ls : List (List Char)),
    (∀ l ∈ ls, '\n' ∉ l) → (∀ l ∈ ls, l.getLast? ≠ some '\r') →
    rustLines (linesJoin ls) = ls := by
  intro ls
  induction ls with
  | nil => intro _ _; rfl
  | cons l ls ih =>
    intro h1 h2
    rw [show linesJoin (l :: ls) = l ++ '\n' :: linesJoin ls from by
      simp [linesJoin]]
    rw [rustLines_append_nl l _ (h1 l (List.mem_cons_self l ls)),
      stripTrailingCR_eq_self l (h2 l (List.mem_cons_self l ls)),
      ih (fun x hx => h1 x (List.mem_cons_of_mem l hx))
        (fun x hx => h2 x (List.mem_cons_of_mem l hx))]

theorem natToChars_no_nl (n : Nat) : '\n' ∉ natToChars n :=
  fun h => absurd (natToChars_all_digit n '\n' h) (by decide)

theorem intToChars_no_nl (a : Int) : '\n' ∉ intToChars a := by
  unfold intToChars
  split
  · intro h
    rcases List.mem_cons.mp h with h | h
    · exact absurd h (by decide)
    · exact natToChars_no_nl _ h
  · exact natToChars_no_nl _

theorem txtEscape_no_nl {d : List Char} (hd : '\n' ∉ d) :
    '\n' ∉ escape_description d := by
  intro h
  rcases mem_txtEscape h with h | h | h
  · exact hd h
  · exact absurd h (by decide)
  · exact absurd h (by decide)

theorem getLast?_ne_cr_of_digit {l : List Char}
    (h : ∀ c ∈ l.getLast?, isAsciiDigit c = true) :
    l.getLast? ≠ some '\r' :=
  fun hc => absurd (h '\r' hc) (by decide)

/-- No written text line embeds a newline or ends in a carriage return,
provided the description embeds no newline. -/
theorem recordLinesList_lines_ok (i : Nat) (t : Transaction)
    (hd : '\n' ∉ t.description) :
    ∀ l ∈ recordLinesList i t, '\n' ∉ l ∧ l.getLast? ≠ some '\r' := by
  intro l hl
  unfold recordLinesList at hl
  have hnat : ∀ n : Nat, '\n' ∉ natToChars n := natToChars_no_nl
  have hty : '\n' ∉ txTypeToken t.tx_type := by
    cases t.tx_type <;> decide
  have hst : '\n' ∉ statusToken t.status := by
    cases t.status <;> decide
  have hdb : '\n' ∉ debugTxType t.tx_type := by
    cases t.tx_type <;> decide
  have htyl : (txTypeToken t.tx_type).getLast? ≠ some '\r' := by
    cases t.tx_type <;> decide
  have hstl : (statusToken t.status).getLast? ≠ some '\r' := by
    cases t.status <;> decide
  simp only [List.mem_cons, List.not_mem_nil, or_false] at hl
  rcases hl with rfl | rfl | rfl | rfl | rfl | rfl | rfl | rfl | rfl
  · constructor
    · simp only [List.mem_append]
      intro h
      rcases h with ((((h | h) | h) | h) | h)
      · exact absurd h (by decide)
      · exact hnat _ h
      · exact absurd h (by decide)
      · exact hdb h
      · exact absurd h (by decide)
    · rw [List.getLast?_append_of_ne_nil _ (by decide)]
      decide
  · constructor
    · simp only [List.mem_append]
      rintro (h | h)
      · exact absurd h (by decide)
      · exact hnat _ h
    · rw [List.getLast?_append_of_ne_nil _ (natToChars_ne_nil _)]
      exact getLast?_ne_cr_of_digit (natToChars_getLast?_digit _)
  · constructor
    · simp only [List.mem_append]
      rintro (h | h)
      · exact absurd h (by decide)
      · exact hty h
    · rw [List.getLast?_append_of_ne_nil _ (by
        cases t.tx_type <;> decide)]
      exact htyl
  · constructor
    · simp only [List.mem_append]
      rintro (h | h)
      · exact absurd h (by decide)
      · exact hnat _ h
    · rw [List.getLast?_append_of_ne_nil _ (natToChars_ne_nil _)]
      exact getLast?_ne_cr_of_digit (natToChars_getLast?_digit _)
  · constructor
    · simp only [List.mem_append]
      rintro (h | h)
      · exact absurd h (by decide)
      · exact hnat _ h
    · rw [List.getLast?_append_of_ne_nil _ (natToChars_ne_nil _)]
      exact getLast?_ne_cr_of_digit (natToChars_getLast?_digit _)
  · constructor
    · simp only [List.mem_append]
      rintro (h | h)
      · exact absurd h (by decide)
      · exact intToChars_no_nl _ h
    · rw [List.getLast?_append_of_ne_nil _ (intToChars_ne_nil _)]
      exact getLast?_ne_cr_of_digit (intToChars_getLast?_digit _)
  · constructor
    · simp only [List.mem_append]
      rintro (h | h)
      · exact absurd h (by decide)
      · exact hnat _ h
    · rw [List.getLast?_append_of_ne_nil _ (natToChars_ne_nil _)]
      exact getLast?_ne_cr_of_digit (natToChars_getLast?_digit _)
  · constructor
    · simp only [List.mem_append]
      rintro (h | h)
      · exact absurd h (by decide)
      · exact hst h
    · rw [List.getLast?_append_of_ne_nil _ (by
        cases t.status <;> decide)]
      exact hstl
  · constructor
    · simp only [List.mem_append, List.mem_cons, List.not_mem_nil,
        or_false]
      rintro (h | h | h | h)
      · exact absurd h (by decide)
      · exact absurd h (by decide)
      · exact txtEscape_no_nl hd h
      · exact absurd h (by decide)
    · rw [List.getLast?_append_of_ne_nil _ (by simp)]
      rw [show ('"' :: (escape_description t.description ++ ['"'])) =
        ('"' :: escape_description t.description) ++ ['"'] from rfl]
      rw [List.getLast?_concat]
      decide

theorem textLinesList_lines_ok : ∀ (ts : List Transaction) (i : Nat),
    (∀ t ∈ ts, '\n' ∉ t.description) →
    ∀ l ∈ textLinesList i ts, '\n' ∉ l ∧ l.getLast? ≠ some '\r' := by
  intro ts
  induction ts with
  | nil => intro i _ l hl; exact absurd hl (List.not_mem_nil l)
  | cons t ts ih =>
    intro i hd l hl
    unfold textLinesList at hl
    rcases List.mem_append.mp hl with hl | hl
    · rcases List.mem_append.mp hl with hl | hl
      · constructor
        · split at hl
          · simp at hl
            subst hl
            exact List.not_mem_nil _
          · exact absurd hl (List.not_mem_nil l)
        · split at hl
          · simp at hl
            subst hl
            decide
          · exact absurd hl (List.not_mem_nil l)
      · exact recordLinesList_lines_ok i t
          (hd t (List.mem_cons_self t ts)) l hl
    · exact ih (i + 1) (fun x hx => hd x (List.mem_cons_of_mem t hx)) l hl

/-- The written text splits back into exactly the planned line list. -/
theorem rustLines_txt_write (ts : List Transaction)
    (hnl : ∀ t ∈ ts, '\n' ∉ t.description) :
    rustLines (write_records ts) = textLinesList 0 ts := by
  rw [write_records_eq_linesJoin]
  exact rustLines_linesJoin (textLinesList 0 ts)
    (fun l hl => (textLinesList_lines_ok ts 0 hnl l hl).1)
    (fun l hl => (textLinesList_lines_ok ts 0 hnl l hl).2)

/-- The field map accumulated from one written record block. -/
def txtFields (t : Transaction) : List (List Char × List Char) :=
  [(cs "TX_ID", natToChars t.tx_id),
    (cs "TX_TYPE", txTypeToken t.tx_type),
    (cs "FROM_USER_ID", natToChars t.from_user_id),
    (cs "TO_USER_ID", natToChars t.to_user_id),
    (cs "AMOUNT", intToChars t.amount),
    (cs "TIMESTAMP", natToChars t.timestamp),
    (cs "STATUS", statusToken t.status),
    (cs "DESCRIPTION",
      '"' :: (escape_description t.description ++ ['"']))]

theorem natToChars_head?_not_ws (n : Nat) :
    ∀ x ∈ (natToChars n).head?, rustIsWhitespace x = false := by
  intro x hx
  obtain ⟨c, cst, hc, hdig⟩ := natToChars_head_digit n
  rw [hc] at hx
  have hcx : c = x := by simpa using hx
  exact hcx ▸ isAsciiDigit_not_ws hdig

theorem rustTrim_natToChars (n : Nat) :
    rustTrim (natToChars n) = natToChars n := by
  apply rustTrim_eq_self (natToChars_head?_not_ws n)
  intro x hx
  exact isAsciiDigit_not_ws (natToChars_getLast?_digit n x hx)

theorem rustTrim_intToChars (a : Int) :
    rustTrim (intToChars a) = intToChars a := by
  apply rustTrim_eq_self
  · intro x hx
    unfold intToChars at hx
    split at hx
    · have hcx : '-' = x := by simpa using hx
      exact hcx ▸ (by decide)
    · exact natToChars_head?_not_ws _ x hx
  · intro x hx
    exact isAsciiDigit_not_ws (intToChars_getLast?_digit a x hx)

theorem rustTrim_txTypeToken (ty : TransactionType) :
    rustTrim (txTypeToken ty) = txTypeToken ty := by
  cases ty <;> decide

theorem rustTrim_statusToken (st : TransactionStatus) :
    rustTrim (statusToken st) = statusToken st := by
  cases st <;> decide

theorem descPayload_getLast? (d : List Char) :
    ('"' :: (escape_description d ++ ['"'])).getLast? = some '"' := by
  rw [show ('"' :: (escape_description d ++ ['"'])) =
    ('"' :: escape_description d) ++ ['"'] from rfl]
  exact List.getLast?_concat _

theorem rustTrim_quoted (d : List Char) :
    rustTrim ('"' :: (escape_description d ++ ['"'])) =
      '"' :: (escape_description d ++ ['"']) := by
  apply rustTrim_eq_self
  · intro x hx
    have hcx : '"' = x := by simpa using hx
    exact hcx ▸ (by decide)
  · intro x hx
    rw [descPayload_getLast? d] at hx
    have hcx : '"' = x := by simpa using hx
    exact hcx ▸ (by decide)

theorem rustTrim_key_payload (pre : List Char) (c : Char)
    (payload : List Char) (hshape : (pre ++ payload).head? = some c)
    (hc : rustIsWhitespace c = false) (hpne : payload ≠ [])
    (hlast : ∀ x ∈ payload.getLast?, rustIsWhitespace x = false) :
    rustTrim (pre ++ payload) = pre ++ payload := by
  apply rustTrim_eq_self
  · intro x hx
    rw [hshape] at hx
    have hcx : c = x := by simpa using hx
    exact hcx ▸ hc
  · intro x hx
    rw [List.getLast?_append_of_ne_nil _ hpne] at hx
    exact hlast x hx

theorem parse_key_value_shape (keyS payload : List Char) (ln : Nat)
    (hc : ':' ∉ keyS) (hkne : keyS.isEmpty = false)
    (hktrim : rustTrim keyS = keyS)
    (hptrim : rustTrim payload = payload) :
    parse_key_value (keyS ++ ':' :: ' ' :: payload) ln =
      .ok (keyS, payload) := by
  unfold parse_key_value
  rw [splitAtFirst_append ':' keyS (' ' :: payload) hc]
  dsimp only
  rw [hktrim, rustTrim_cons_space, hptrim]
  rw [if_neg (by simp [hkne])]

/-- One `KEY: VALUE` step of the text reader's line loop. -/
theorem textLoop_kv (line keyS value : List Char) (ln : Nat)
    (rest : List (List Char)) (current : List (List Char × List Char))
    (htrim : rustTrim line = line) (hne : line.isEmpty = false)
    (hhash : line.head? ≠ some '#')
    (hkv : parse_key_value line (ln + 1) = .ok (keyS, value))
    (hdup : mapContains current keyS = false) :
    parseRecordsLoop ln (line :: rest) current =
      parseRecordsLoop (ln + 1) rest (mapInsert current keyS value) := by
  simp only [parseRecordsLoop]
  rw [htrim]
  rw [if_neg (by simp [hne]), if_neg hhash, hkv]
  simp only [Outcome.bind_ok]
  rw [if_neg (by simp [hdup])]

theorem textLoop_comment (line : List Char) (ln : Nat)
    (rest : List (List Char)) (current : List (List Char × List Char))
    (htrim : rustTrim line = line) (hne : line.isEmpty = false)
    (hhash : line.head? = some '#') :
    parseRecordsLoop ln (line :: rest) current =
      parseRecordsLoop (ln + 1) rest current := by
  simp only [parseRecordsLoop]
  rw [htrim]
  rw [if_neg (by simp [hne]), if_pos hhash]

theorem textLoop_blank_flush (ln : Nat) (rest : List (List Char))
    (current : List (List Char × List Char))
    (hcur : current.isEmpty = false) :
    parseRecordsLoop ln ([] :: rest) current =
      (parse_record current (ln + 1)).bind fun t =>
        (parseRecordsLoop (ln + 1) rest []).map (fun ts => t :: ts) := by
  simp only [parseRecordsLoop]
  rw [show rustTrim ([] : List Char) = [] from rfl]
  rw [if_pos (show ([] : List Char).isEmpty = true from rfl),
    if_pos (by simp [hcur])]

theorem textLoop_end_flush (ln : Nat)
    (current : List (List Char × List Char))
    (hcur : current.isEmpty = false) :
    parseRecordsLoop ln [] current =
      (parse_record current ln).map (fun t => [t]) := by
  simp only [parseRecordsLoop]
  rw [if_neg (by simp [hcur])]

theorem txt_parse_u64_eq (fields : List (List Char × List Char))
    (name : List Char) (ln : Nat) (n : Nat) (hn : n < 2 ^ 64)
    (hget : mapGet fields name = some (natToChars n)) :
    parse_u64_field fields name ln = .ok n := by
  unfold parse_u64_field
  rw [hget]
  dsimp only
  rw [parseU64_natToChars hn]

theorem txtTakeWhile_eq_self {α : Type} {p : α → Bool} :
    ∀ (l : List α), (∀ x ∈ l, p x = true) → l.takeWhile p = l
  | [], _ => rfl
  | x :: xs, h => by
    simp [List.takeWhile_cons, h x (List.mem_cons_self x xs),
      txtTakeWhile_eq_self xs (fun y hy => h y (List.mem_cons_of_mem x hy))]

theorem intToChars_mem {a : Int} {c : Char} (h : c ∈ intToChars a) :
    c = '-' ∨ isAsciiDigit c = true := by
  unfold intToChars at h
  split at h
  · rcases List.mem_cons.mp h with rfl | h
    · exact Or.inl rfl
    · exact Or.inr (natToChars_all_digit _ _ h)
  · exact Or.inr (natToChars_all_digit _ _ h)

theorem txt_parse_i64_eq (fields : List (List Char × List Char)) (ln : Nat)
    (a : Int) (hlo : -(2 ^ 63) ≤ a) (hhi : a < 2 ^ 63) (hpos : 0 < a)
    (hget : mapGet fields (cs "AMOUNT") = some (intToChars a)) :
    parse_i64_field fields (cs "AMOUNT") ln = .ok a := by
  unfold parse_i64_field
  rw [hget]
  dsimp only
  rw [txtTakeWhile_eq_self (intToChars a) (fun x hx => by
    rcases intToChars_mem hx with rfl | hdig
    · decide
    · simp only [decide_eq_true_eq]
      exact (isAsciiDigit_ne_nl hdig).2.2.2)]
  rw [rustTrim_intToChars, parseI64_intToChars hlo hhi]
  dsimp only
  rw [if_neg (by omega)]

theorem txt_parse_tx_type_eq (fields : List (List Char × List Char))
    (ln : Nat) (ty : TransactionType)
    (hget : mapGet fields (cs "TX_TYPE") = some (txTypeToken ty)) :
    parse_tx_type fields ln = .ok ty := by
  unfold parse_tx_type
  rw [hget]
  cases ty <;> rfl

theorem txt_parse_status_eq (fields : List (List Char × List Char))
    (ln : Nat) (st : TransactionStatus)
    (hget : mapGet fields (cs "STATUS") = some (statusToken st)) :
    parse_status fields ln = .ok st := by
  unfold parse_status
  rw [hget]
  cases st <;> rfl

theorem txt_parse_description_eq (fields : List (List Char × List Char))
    (ln : Nat) (d : List Char)
    (hget : mapGet fields (cs "DESCRIPTION") =
      some ('"' :: (escape_description d ++ ['"']))) :
    parse_description fields ln = .ok d := by
  unfold parse_description
  rw [hget]
  dsimp only
  rw [rustTrim_quoted d]
  rw [if_neg (by
    intro hcon
    exact hcon ⟨rfl, descPayload_getLast? d⟩)]
  rw [if_neg (by simp)]
  rw [show (('"' :: (escape_description d ++ ['"'])).drop 1) =
    escape_description d ++ ['"'] from rfl]
  rw [List.dropLast_concat, txtUnescape_txtEscape]

theorem txtValidate_record_ok (ty : TransactionType) (fr tu ln : Nat)
    (hdep : ty = .Deposit → fr = 0) (hwdr : ty = .Withdrawal → tu = 0)
    (htr : ty = .Transfer → fr ≠ 0 ∧ tu ≠ 0) :
    validate_record ty fr tu ln = .ok () := by
  unfold validate_record
  cases ty with
  | Deposit => simp [hdep rfl]
  | Transfer =>
    obtain ⟨h1, h2⟩ := htr rfl
    simp [h1, h2]
  | Withdrawal => simp [hwdr rfl]

/-- Parsing the accumulated field map of a written record reconstructs
the transaction. -/
theorem parse_record_txtFields (t : Transaction) (ln : Nat) (hwf : t.wf)
    (hbiz : businessOk t) :
    parse_record (txtFields t) ln = .ok t := by
  obtain ⟨hid, hfrom, hto, hts, halo, hahi⟩ := hwf
  unfold parse_record
  rw [show checkRequired (txtFields t) requiredFields = .ok () from rfl]
  simp only [Outcome.bind_ok]
  rw [txt_parse_u64_eq (txtFields t) (cs "TX_ID") ln t.tx_id hid rfl]
  simp only [Outcome.bind_ok]
  rw [txt_parse_tx_type_eq (txtFields t) ln t.tx_type rfl]
  simp only [Outcome.bind_ok]
  rw [txt_parse_u64_eq (txtFields t) (cs "FROM_USER_ID") ln t.from_user_id
    hfrom rfl]
  simp only [Outcome.bind_ok]
  rw [txt_parse_u64_eq (txtFields t) (cs "TO_USER_ID") ln t.to_user_id
    hto rfl]
  simp only [Outcome.bind_ok]
  rw [txt_parse_i64_eq (txtFields t) ln t.amount halo hahi hbiz.1 rfl]
  simp only [Outcome.bind_ok]
  rw [txt_parse_u64_eq (txtFields t) (cs "TIMESTAMP") ln t.timestamp
    hts rfl]
  simp only [Outcome.bind_ok]
  rw [txt_parse_status_eq (txtFields t) ln t.status rfl]
  simp only [Outcome.bind_ok]
  rw [txt_parse_description_eq (txtFields t) ln t.description rfl]
  simp only [Outcome.bind_ok]
  rw [txtValidate_record_ok t.tx_type t.from_user_id t.to_user_id ln
    hbiz.2.1 hbiz.2.2.1 hbiz.2.2.2]
  rfl

theorem kv_line_txid (t : Transaction) (ln : Nat) :
    parse_key_value (cs "TX_ID: " ++ (natToChars t.tx_id)) ln =
      .ok (cs "TX_ID", natToChars t.tx_id) := by
  rw [show cs "TX_ID: " = cs "TX_ID" ++ [':', ' '] from rfl,
    List.append_assoc]
  exact parse_key_value_shape (cs "TX_ID") (natToChars t.tx_id) ln
    (by decide) (by decide) (by decide) (rustTrim_natToChars t.tx_id)

theorem kv_line_txtype (t : Transaction) (ln : Nat) :
    parse_key_value (cs "TX_TYPE: " ++ (txTypeToken t.tx_type)) ln =
      .ok (cs "TX_TYPE", txTypeToken t.tx_type) := by
  rw [show cs "TX_TYPE: " = cs "TX_TYPE" ++ [':', ' '] from rfl,
    List.append_assoc]
  exact parse_key_value_shape (cs "TX_TYPE") (txTypeToken t.tx_type) ln
    (by decide) (by decide) (by decide) (rustTrim_txTypeToken t.tx_type)

theorem kv_line_from (t : Transaction) (ln : Nat) :
    parse_key_value (cs "FROM_USER_ID: " ++ (natToChars t.from_user_id)) ln =
      .ok (cs "FROM_USER_ID", natToChars t.from_user_id) := by
  rw [show cs "FROM_USER_ID: " = cs "FROM_USER_ID" ++ [':', ' '] from rfl,
    List.append_assoc]
  exact parse_key_value_shape (cs "FROM_USER_ID") (natToChars t.from_user_id) ln
    (by decide) (by decide) (by decide) (rustTrim_natToChars t.from_user_id)

theorem kv_line_tuid (t : Transaction) (ln : Nat) :
    parse_key_value (cs "TO_USER_ID: " ++ (natToChars t.to_user_id)) ln =
      .ok (cs "TO_USER_ID", natToChars t.to_user_id) := by
  rw [show cs "TO_USER_ID: " = cs "TO_USER_ID" ++ [':', ' '] from rfl,
    List.append_assoc]
  exact parse_key_value_shape (cs "TO_USER_ID") (natToChars t.to_user_id) ln
    (by decide) (by decide) (by decide) (rustTrim_natToChars t.to_user_id)

theorem kv_line_amount (t : Transaction) (ln : Nat) :
    parse_key_value (cs "AMOUNT: " ++ (intToChars t.amount)) ln =
      .ok (cs "AMOUNT", intToChars t.amount) := by
  rw [show cs "AMOUNT: " = cs "AMOUNT" ++ [':', ' '] from rfl,
    List.append_assoc]
  exact parse_key_value_shape (cs "AMOUNT") (intToChars t.amount) ln
    (by decide) (by decide) (by decide) (rustTrim_intToChars t.amount)

theorem kv_line_timestamp (t : Transaction) (ln : Nat) :
    parse_key_value (cs "TIMESTAMP: " ++ (natToChars t.timestamp)) ln =
      .ok (cs "TIMESTAMP", natToChars t.timestamp) := by
  rw [show cs "TIMESTAMP: " = cs "TIMESTAMP" ++ [':', ' '] from rfl,
    List.append_assoc]
  exact parse_key_value_shape (cs "TIMESTAMP") (natToChars t.timestamp) ln
    (by decide) (by decide) (by decide) (rustTrim_natToChars t.timestamp)

theorem kv_line_status (t : Transaction) (ln : Nat) :
    parse_key_value (cs "STATUS: " ++ (statusToken t.status)) ln =
      .ok (cs "STATUS", statusToken t.status) := by
  rw [show cs "STATUS: " = cs "STATUS" ++ [':', ' '] from rfl,
    List.append_assoc]
  exact parse_key_value_shape (cs "STATUS") (statusToken t.status) ln
    (by decide) (by decide) (by decide) (rustTrim_statusToken t.status)

theorem kv_line_descr (t : Transaction) (ln : Nat) :
    parse_key_value (cs "DESCRIPTION: " ++ ('"' :: (escape_description t.description ++ ['"']))) ln =
      .ok (cs "DESCRIPTION", '"' :: (escape_description t.description ++ ['"'])) := by
  rw [show cs "DESCRIPTION: " = cs "DESCRIPTION" ++ [':', ' '] from rfl,
    List.append_assoc]
  exact parse_key_value_shape (cs "DESCRIPTION") ('"' :: (escape_description t.description ++ ['"'])) ln
    (by decide) (by decide) (by decide) (rustTrim_quoted t.description)

theorem trim_line_txid (t : Transaction) :
    rustTrim (cs "TX_ID: " ++ (natToChars t.tx_id)) =
      cs "TX_ID: " ++ (natToChars t.tx_id) :=
  rustTrim_key_payload (cs "TX_ID: ") 'T' (natToChars t.tx_id) rfl (by decide)
    (natToChars_ne_nil t.tx_id) (fun y hy => isAsciiDigit_not_ws (natToChars_getLast?_digit t.tx_id y hy))

theorem trim_line_from (t : Transaction) :
    rustTrim (cs "FROM_USER_ID: " ++ (natToChars t.from_user_id)) =
      cs "FROM_USER_ID: " ++ (natToChars t.from_user_id) :=
  rustTrim_key_payload (cs "FROM_USER_ID: ") 'F' (natToChars t.from_user_id) rfl (by decide)
    (natToChars_ne_nil t.from_user_id) (fun y hy => isAsciiDigit_not_ws (natToChars_getLast?_digit t.from_user_id y hy))

theorem trim_line_tuid (t : Transaction) :
    rustTrim (cs "TO_USER_ID: " ++ (natToChars t.to_user_id)) =
      cs "TO_USER_ID: " ++ (natToChars t.to_user_id) :=
  rustTrim_key_payload (cs "TO_USER_ID: ") 'T' (natToChars t.to_user_id) rfl (by decide)
    (natToChars_ne_nil t.to_user_id) (fun y hy => isAsciiDigit_not_ws (natToChars_getLast?_digit t.to_user_id y hy))

theorem trim_line_amount (t : Transaction) :
    rustTrim (cs "AMOUNT: " ++ (intToChars t.amount)) =
      cs "AMOUNT: " ++ (intToChars t.amount) :=
  rustTrim_key_payload (cs "AMOUNT: ") 'A' (intToChars t.amount) rfl (by decide)
    (intToChars_ne_nil t.amount) (fun y hy => isAsciiDigit_not_ws (intToChars_getLast?_digit t.amount y hy))

theorem trim_line_timestamp (t : Transaction) :
    rustTrim (cs "TIMESTAMP: " ++ (natToChars t.timestamp)) =
      cs "TIMESTAMP: " ++ (natToChars t.timestamp) :=
  rustTrim_key_payload (cs "TIMESTAMP: ") 'T' (natToChars t.timestamp) rfl (by decide)
    (natToChars_ne_nil t.timestamp) (fun y hy => isAsciiDigit_not_ws (natToChars_getLast?_digit t.timestamp y hy))

theorem trim_line_txtype (t : Transaction) :
    rustTrim (cs "TX_TYPE: " ++ txTypeToken t.tx_type) =
      cs "TX_TYPE: " ++ txTypeToken t.tx_type := by
  cases t.tx_type <;> decide

theorem trim_line_status (t : Transaction) :
    rustTrim (cs "STATUS: " ++ statusToken t.status) =
      cs "STATUS: " ++ statusToken t.status := by
  cases t.status <;> decide

theorem trim_line_descr (t : Transaction) :
    rustTrim (cs "DESCRIPTION: " ++
        ('"' :: (escape_description t.description ++ ['"']))) =
      cs "DESCRIPTION: " ++
        ('"' :: (escape_description t.description ++ ['"'])) :=
  rustTrim_key_payload (cs "DESCRIPTION: ") 'D' _ rfl (by decide)
    (by simp) (fun y hy => by
      rw [descPayload_getLast? t.description] at hy
      have hcy : '"' = y := by simpa using hy
      exact hcy ▸ (by decide))

theorem trim_line_comment (i : Nat) (t : Transaction) :
    rustTrim (cs "# Record " ++ natToChars (i + 1) ++ cs " (" ++
        debugTxType t.tx_type ++ cs ")") =
      cs "# Record " ++ natToChars (i + 1) ++ cs " (" ++
        debugTxType t.tx_type ++ cs ")" := by
  apply rustTrim_eq_self
  · intro x hx
    rw [show (cs "# Record " ++ natToChars (i + 1) ++ cs " (" ++
      debugTxType t.tx_type ++ cs ")").head? = some '#' from rfl] at hx
    have hcx : '#' = x := by simpa using hx
    exact hcx ▸ (by decide)
  · intro x hx
    rw [List.getLast?_append_of_ne_nil _ (by decide),
      show (cs ")").getLast? = some ')' from rfl] at hx
    have hcx : ')' = x := by simpa using hx
    exact hcx ▸ (by decide)

theorem txt_head_ne_hash {l : List Char} {c : Char}
    (hl : l.head? = some c) (hc : c ≠ '#') : l.head? ≠ some '#' := by
  rw [hl]
  simp [hc]

/-- Consuming one written record block accumulates exactly its field
map. -/
theorem textLoop_block (t : Transaction) (i ln : Nat)
    (rest : List (List Char)) :
    parseRecordsLoop ln (recordLinesList i t ++ rest) [] =
      parseRecordsLoop (ln + 9) rest (txtFields t) := by
  show parseRecordsLoop ln
    ((cs "# Record " ++ natToChars (i + 1) ++ cs " (" ++
        debugTxType t.tx_type ++ cs ")") ::
      (cs "TX_ID: " ++ natToChars t.tx_id) ::
      (cs "TX_TYPE: " ++ txTypeToken t.tx_type) ::
      (cs "FROM_USER_ID: " ++ natToChars t.from_user_id) ::
      (cs "TO_USER_ID: " ++ natToChars t.to_user_id) ::
      (cs "AMOUNT: " ++ intToChars t.amount) ::
      (cs "TIMESTAMP: " ++ natToChars t.timestamp) ::
      (cs "STATUS: " ++ statusToken t.status) ::
      (cs "DESCRIPTION: " ++
        ('"' :: (escape_description t.description ++ ['"']))) :: rest)
      [] = _
  rw [textLoop_comment _ _ _ _ (trim_line_comment i t) (by rfl) (by rfl)]
  rw [textLoop_kv _ _ _ _ _ _ (trim_line_txid t) (by rfl) (txt_head_ne_hash rfl (by decide))
    (kv_line_txid t _) (by rfl)]
  rw [textLoop_kv _ _ _ _ _ _ (trim_line_txtype t) (by rfl) (txt_head_ne_hash rfl (by decide))
    (kv_line_txtype t _) (by rfl)]
  rw [textLoop_kv _ _ _ _ _ _ (trim_line_from t) (by rfl) (txt_head_ne_hash rfl (by decide))
    (kv_line_from t _) (by rfl)]
  rw [textLoop_kv _ _ _ _ _ _ (trim_line_tuid t) (by rfl) (txt_head_ne_hash rfl (by decide))
    (kv_line_tuid t _) (by rfl)]
  rw [textLoop_kv _ _ _ _ _ _ (trim_line_amount t) (by rfl) (txt_head_ne_hash rfl (by decide))
    (kv_line_amount t _) (by rfl)]
  rw [textLoop_kv _ _ _ _ _ _ (trim_line_timestamp t) (by rfl) (txt_head_ne_hash rfl (by decide))
    (kv_line_timestamp t _) (by rfl)]
  rw [textLoop_kv _ _ _ _ _ _ (trim_line_status t) (by rfl) (txt_head_ne_hash rfl (by decide))
    (kv_line_status t _) (by rfl)]
  rw [textLoop_kv _ _ _ _ _ _ (trim_line_descr t) (by rfl) (txt_head_ne_hash rfl (by decide))
    (kv_line_descr t _) (by rfl)]
  rfl

theorem textLinesList_cons_pos (j : Nat) (hj : 0 < j)
    (t : Transaction) (ts : List Transaction) :
    textLinesList j (t :: ts) =
      [] :: (recordLinesList j t ++ textLinesList (j + 1) ts) := by
  show (if 0 < j then [([] : List Char)] else []) ++ recordLinesList j t ++
      textLinesList (j + 1) ts = _
  rw [if_pos hj]
  simp

theorem textLinesList_zero_cons (t : Transaction)
    (ts : List Transaction) :
    textLinesList 0 (t :: ts) =
      recordLinesList 0 t ++ textLinesList 1 ts := by
  show (if 0 < 0 then [([] : List Char)] else []) ++ recordLinesList 0 t ++
      textLinesList 1 ts = _
  rw [if_neg (by omega)]
  simp

theorem textLoopTail : ∀ (ts : List Transaction) (t : Transaction)
    (j ln : Nat), 0 < j → (∀ x ∈ t :: ts, x.wf) →
    (∀ x ∈ t :: ts, businessOk x) →
    parseRecordsLoop ln (textLinesList j ts) (txtFields t) =
      .ok (t :: ts) := by
  intro ts
  induction ts with
  | nil =>
    intro t j ln hj hwf hbiz
    show parseRecordsLoop ln [] (txtFields t) = _
    rw [textLoop_end_flush ln (txtFields t) rfl,
      parse_record_txtFields t ln (hwf t (List.mem_cons_self t []))
        (hbiz t (List.mem_cons_self t []))]
    rfl
  | cons t2 ts ih =>
    intro t j ln hj hwf hbiz
    rw [textLinesList_cons_pos j hj t2 ts]
    rw [textLoop_blank_flush ln
      (recordLinesList j t2 ++ textLinesList (j + 1) ts) (txtFields t)
      rfl,
      parse_record_txtFields t (ln + 1) (hwf t (List.mem_cons_self t _))
        (hbiz t (List.mem_cons_self t _))]
    simp only [Outcome.bind_ok]
    rw [textLoop_block t2 j (ln + 1) (textLinesList (j + 1) ts)]
    rw [ih t2 (j + 1) (ln + 1 + 9) (by omega)
      (fun x hx => hwf x (List.mem_cons_of_mem t hx))
      (fun x hx => hbiz x (List.mem_cons_of_mem t hx))]
    rfl

/-- The Text round trip: writing then parsing a list of well-formed,
business-rule-respecting records whose descriptions embed no newline
reproduces the list. -/
theorem txt_roundtrip (ts : List Transaction)
    (hwf : ∀ t ∈ ts, t.wf) (hbiz : ∀ t ∈ ts, businessOk t)
    (hnl : ∀ t ∈ ts, '\n' ∉ t.description) :
    parse_records (write_records ts) = .ok ts := by
  unfold parse_records
  rw [rustLines_txt_write ts hnl]
  cases ts with
  | nil => rfl
  | cons t ts2 =>
    rw [textLinesList_zero_cons t ts2]
    rw [textLoop_block t 0 0 (textLinesList 1 ts2)]
    exact textLoopTail ts2 t 1 9 (by omega) hwf hbiz

end TextParser

/-! ## MT940 codec (src/mt940_format.rs) -/

/-- Overwriting insert, as `HashMap::insert`: a present key gets the new
value, a new key is appended. For the text codec (which inserts only after
a `contains_key` check) this coincides with plain append. -/
def mapPut (m : List (List Char × List Char)) (k v : List Char) :
    List (List Char × List Char) :=
  if mapContains m k then
    m.map (fun p => if p.1 = k then (k, v) else p)
  else m ++ [(k, v)]

/-- `HashMap::extend`: insert every pair. -/
def mapExtend (m adds : List (List Char × List Char)) :
    List (List Char × List Char) :=
  adds.foldl (fun acc p => mapPut acc p.1 p.2) m

namespace MT940Parser

/-- The anchored tag pattern `^:(\d{2}[A-Z]?):` — on success, the captured
tag and the text after its closing colon. The regex alternatives (with and
without the optional uppercase letter) cannot both apply, since `:` is not
in `[A-Z]`. -/
def tagPrefix (s : List Char) : Option (List Char × List Char) :=
  match s with
  | ':' :: d1 :: d2 :: rest =>
    if isAsciiDigit d1 ∧ isAsciiDigit d2 then
      if rest.head? = some ':' then some ([d1, d2], rest.tail)
      else if 2 ≤ rest.length ∧ ('A' ≤ rest.getD 0 ' ' ∧
          rest.getD 0 ' ' ≤ 'Z') ∧ rest.getD 1 ' ' = ':' then
        some ([d1, d2, rest.getD 0 ' '], rest.drop 2)
      else none
    else none
  | _ => none

/-- The unanchored `field_re` pattern `:(\d{2}[A-Z]?):(.+)`: the leftmost
position where a tag is followed by a nonempty value (lines contain no
`'\n'`, so `.+` reaches the end of the line). -/
def fieldCaptures : List Char → Option (List Char × List Char)
  | [] => none
  | c :: rest =>
    match tagPrefix (c :: rest) with
    | some (tag, after) =>
      if after ≠ [] then some (tag, after) else fieldCaptures rest
    | none => fieldCaptures rest

/-- Index of the first `"//"` in a string. -/
def findDoubleSlash : List Char → Option Nat
  | [] => none
  | [_] => none
  | a :: b :: rest =>
    if a = '/' ∧ b = '/' then some 0
    else (findDoubleSlash (b :: rest)).map (fun i => i + 1)

/-- The characters spanned by the first `n` bytes of a string's UTF-8
encoding: `some` exactly when byte index `n` falls on a character
boundary (Rust `&s[0..n]`), `none` when that slice would panic (or when
the string has fewer than `n` bytes). -/
def takeBytes : Nat → List Char → Option (List Char)
  | 0, _ => some []
  | _ + 1, [] => none
  | n, c :: rest =>
    if (utf8EncodeChar c).length ≤ n then
      (takeBytes (n - (utf8EncodeChar c).length) rest).map
        (fun l => c :: l)
    else none

/-- `MT940Parser::parse_61_field` (src/mt940_format.rs lines 94-183).

The date slice `&value[0..6]` (line 112) is a byte slice: when byte 6 of
the trimmed value is not a UTF-8 character boundary the source panics,
modelled here by `takeBytes` returning `none`. The remaining mixes of
byte and character positions in the source (`value.len()` bounding the
amount scan, `chars().nth(..).unwrap()`, the slices at `pos + 1`,
`amount_end` and `ref_start`) all sit in the marker-found branch and are
modelled at character positions; they agree with the source on ASCII
values, and every theorem below enters that branch only on ASCII input
(the `value.len() < 10` guard is the byte length, modelled as `utf8Len`).
The `char::is_numeric` date guard is Unicode-numeric in the source and
ASCII-digit here; no theorem depends on which characters pass it. -/
def parse_61_field (value : List Char) : Outcome
    (List (List Char × List Char)) :=
  let v := rustTrim value
  if utf8Len v < 10 then
    .fail (.Parse ("Invalid :61: field format, too short: '" ++
      String.mk v ++ "'"))
  else
    match takeBytes 6 v with
    | none => .panicked
    | some date_str =>
      let fields0 : List (List Char × List Char) :=
        if date_str.all isAsciiDigit then [(cs "Date", date_str)] else []
      match (v.enum.find? (fun p =>
          6 ≤ p.1 ∧ (p.2 = 'D' ∨ p.2 = 'C'))).map (fun p => p.1) with
      | none =>
        .fail (.Parse ("No D/C marker found in :61: field: '" ++
          String.mk v ++ "'"))
      | some pos =>
        let fields1 := mapPut fields0 (cs "DC") [v.getD pos ' ']
        let amount_chars := (v.drop (pos + 1)).takeWhile
          (fun c => isAsciiDigit c ∨ c = ',' ∨ c = '.')
        let amount_end := pos + 1 + amount_chars.length
        let fields2 :=
          if amount_chars.length ≠ 0 then
            mapPut fields1 (cs "AmountRaw") amount_chars
          else fields1
        if amount_end < v.length then
          let tail := v.drop amount_end
          match findDoubleSlash tail with
          | some dsp =>
            let code_str := tail.take dsp
            let fields3 :=
              if (rustTrim code_str).isEmpty then fields2
              else mapPut fields2 (cs "TransactionCode") (rustTrim code_str)
            let ref_start := amount_end + dsp + 2
            if ref_start < v.length then
              let ref_str := v.drop ref_start
              if (rustTrim ref_str).isEmpty then .ok fields3
              else .ok (mapPut fields3 (cs "CustomerReference")
                (rustTrim ref_str))
            else .ok fields3
          | none =>
            if (rustTrim tail).isEmpty then .ok fields2
            else .ok (mapPut fields2 (cs "TransactionCode") (rustTrim tail))
        else .ok fields2

/-- `str::split('/')`: all segments, empties included. -/
def splitSlash : List Char → List (List Char)
  | [] => [[]]
  | c :: rest =>
    if c = '/' then [] :: splitSlash rest
    else
      match splitSlash rest with
      | s :: ss => (c :: s) :: ss
      | [] => [[c]]

/-- The field-name mapping of `MT940Parser::parse_86_field`
(src/mt940_format.rs lines 205-218). -/
def field86Key (name : List Char) : List Char :=
  if name = cs "EREF" then cs "EREF"
  else if name = cs "CRNM" ∨ name = cs "CNRM" then cs "CounterpartyName"
  else if name = cs "CACT" ∨ name = cs "DACT" then cs "AccountNumber"
  else if name = cs "CBIC" ∨ name = cs "DBIC" then cs "BIC"
  else if name = cs "REMI" then cs "Description"
  else if name = cs "OPRP" then cs "Purpose"
  else if name = cs "OAMT" then cs "OriginalAmount"
  else if name = cs "DCID" then cs "DebtorId"
  else cs "Other_" ++ name

/-- The token loop of `MT940Parser::parse_86_field`: the split tokens
alternate as names and values, empty tokens are skipped, a trailing
unpaired name lands under `Unparsed`. -/
def loop86 (fields : List (List Char × List Char))
    (current_field : List Char) :
    List (List Char) → List (List Char × List Char)
  | [] =>
    if current_field.isEmpty then fields
    else mapPut fields (cs "Unparsed") current_field
  | tok :: toks =>
    if tok.isEmpty then loop86 fields current_field toks
    else if current_field.isEmpty then loop86 fields tok toks
    else loop86 (mapPut fields (field86Key current_field) tok) [] toks

/-- `MT940Parser::parse_86_field` (src/mt940_format.rs lines 186-230);
always `Ok` in the source as well. -/
def parse_86_field (value : List Char) : List (List Char × List Char) :=
  loop86 [] [] (splitSlash value)

/-- The base-31 rolling hash over UTF-8 bytes in
`MT940Parser::generate_tx_id`, with `u64` wrapping. -/
def strHash (s : List Char) : Nat :=
  (utf8Encode s).foldl (fun acc b => (acc * 31 + b) % 2 ^ 64) 0

/-- Stand-in for `format!("{:?}", fields)` in the `generate_tx_id`
fallback: the source renders the `HashMap` in its nondeterministic
iteration order, so the fallback hash is not reproducible run-to-run; this
canonical rendering keeps the definition total. No theorem reaches the
fallback branch (their inputs always carry `EREF` or
`CustomerReference`). -/
def mapDebugRender (m : List (List Char × List Char)) : List Char :=
  cs "\x7b" ++
    (List.intersperse (cs ", ")
      (m.map (fun p => cs "\"" ++ p.1 ++ cs "\": \"" ++ p.2 ++ cs "\""))).flatten
    ++ cs "\x7d"

/-- `MT940Parser::generate_tx_id` (src/mt940_format.rs lines 262-277). -/
def generate_tx_id (fields : List (List Char × List Char)) : Nat :=
  match mapGet fields (cs "EREF") with
  | some eref => strHash eref % 1000000000
  | none =>
    match mapGet fields (cs "CustomerReference") with
    | some ref_num => strHash ref_num % 1000000000
    | none => strHash (mapDebugRender fields) % 1000000000

/-- Rust `str::contains("CITI")`. -/
def containsCITI : List Char → Bool
  | [] => false
  | c :: rest =>
    ((c :: rest).take 4 = cs "CITI") || containsCITI rest

/-- `MT940Parser::determine_transfer_type` (src/mt940_format.rs lines
280-308). -/
def determine_transfer_type (fields : List (List Char × List Char)) :
    TransactionType × Nat × Nat :=
  match mapGet fields (cs "DC") with
  | some dc =>
    if dc = cs "D" then
      match mapGet fields (cs "BIC") with
      | some bic =>
        if containsCITI bic ∨ bic.take 2 = cs "DB" then
          (.Transfer, 1000, 2000)
        else (.Withdrawal, 1000, 0)
      | none => (.Transfer, 1000, 2000)
    else if dc = cs "C" then (.Deposit, 0, 1000)
    else (.Transfer, 1000, 2000)
  | none => (.Transfer, 1000, 2000)

/-- Value of a digit run (0 for the empty run). -/
def digitsVal (s : List Char) : Nat :=
  s.foldl (fun acc c => acc * 10 + digitVal c) 0

/-- The `f64` pipeline of `MT940Parser::parse_amount` on a cleaned string:
parse as a decimal number, multiply by 100 and round half-away-from-zero.

The source parses an `f64` and computes `(x * 100.0).round()` in binary
floating point; this model computes the same quantity in exact integer
arithmetic over the grammar `digits [ '.' digits ]` that the `:61:` amount
alphabet (digits, `,` → `.`) produces. For every amount the theorems below
evaluate (`12,01` → `12.01`), the two agree: the nearest `f64` to 12.01 is
within `2^-50` of it, so the product is within `100 * 2^-50 ≈ 8.9e-14` of
1201, well inside the half-ulp `≈ 1.1e-13` of that region, and the product
rounds to exactly 1201.0. Inputs outside the grammar (signs, exponents,
several dots) are `none`, as `f64::from_str` errors on the same alphabet
subset. -/
def parseAmountScaled (s : List Char) : Option Int :=
  match splitAtFirst '.' s with
  | none =>
    if s ≠ [] ∧ s.all isAsciiDigit then some ((digitsVal s : Int) * 100)
    else none
  | some (ip, fp) =>
    if (ip ≠ [] ∨ fp ≠ []) ∧ ip.all isAsciiDigit ∧ fp.all isAsciiDigit ∧
        fp.all (fun c => c ≠ '.') then
      let n := digitsVal (ip ++ fp)
      let d := 10 ^ fp.length
      some (((n * 100 * 2 + d) / (2 * d) : Nat) : Int)
    else none

/-- `MT940Parser::parse_amount` (src/mt940_format.rs lines 311-343). -/
def parse_amount (fields : List (List Char × List Char))
    (line_number : Nat) : Outcome Int :=
  match (mapGet fields (cs "AmountRaw")).orElse
      (fun _ => mapGet fields (cs "OriginalAmount")) with
  | none =>
    .fail (.Parse ("Line " ++ toString line_number ++
      ": No amount field found"))
  | some amount_str =>
    let cleaned := amount_str.map (fun c => if c = ',' then '.' else c)
    match parseAmountScaled cleaned with
    | none =>
      .fail (.Parse ("Line " ++ toString line_number ++
        ": Invalid amount format '" ++ String.mk amount_str ++ "'"))
    | some amount_i64 =>
      match mapGet fields (cs "DC") with
      | some dc => if dc = cs "D" then .ok (-amount_i64) else .ok amount_i64
      | none => .ok amount_i64

/-- Gregorian leap year. -/
def isLeapYear (y : Nat) : Bool :=
  (y % 4 = 0 && y % 100 ≠ 0) || y % 400 = 0

/-- Days in a month (chrono's calendar validation). -/
def daysInMonth (y m : Nat) : Nat :=
  if m = 2 then (if isLeapYear y then 29 else 28)
  else if m = 4 ∨ m = 6 ∨ m = 9 ∨ m = 11 then 30
  else 31

/-- Days from 1970-01-01 to y-m-d (proleptic Gregorian, valid dates with
`y ≥ 1`); the standard civil-days computation chrono implements. -/
def daysFromCivil (y m d : Nat) : Int :=
  let yAdj : Int := (y : Int) - (if m ≤ 2 then 1 else 0)
  let era : Int := yAdj / 400
  let yoe : Int := yAdj - era * 400
  let mAdj : Int := (m : Int) + (if m > 2 then -3 else 9)
  let doy : Int := (153 * mAdj + 2) / 5 + (d : Int) - 1
  let doe : Int := yoe * 365 + yoe / 4 - yoe / 100 + doy
  era * 146097 + doe - 719468

/-- Stand-in for `Utc::now().timestamp_millis()`, reached only when the
`Date` field is missing or not six characters long; the wall clock is not
modelled and no theorem exercises these branches. -/
def utcNowMillis : Nat := 0

/-- `MT940Parser::parse_timestamp` (src/mt940_format.rs lines 346-403):
a six-digit `DDMMYY` date becomes noon UTC of that day (years `≥ 50` map
to 19xx, the rest to 20xx); `timestamp_millis() as u64` wraps negative
pre-1970 instants, hence the `% 2^64`. -/
def parse_timestamp (fields : List (List Char × List Char))
    (line_number : Nat) : Outcome Nat :=
  match mapGet fields (cs "Date") with
  | some date_str =>
    if date_str.length = 6 then
      match parseU64 (date_str.take 2), parseU64 ((date_str.drop 2).take 2),
          parseU64 (date_str.drop 4) with
      | some day, some month, some year_short =>
        let year := if year_short ≥ 50 then 1900 + year_short
          else 2000 + year_short
        if 1 ≤ month ∧ month ≤ 12 ∧ 1 ≤ day ∧ day ≤ daysInMonth year month
            then
          .ok ((((daysFromCivil year month day * 86400 + 43200) * 1000) %
            2 ^ 64).toNat)
        else
          .fail (.Parse ("Line " ++ toString line_number ++
            ": Invalid date '" ++ String.mk date_str ++ "' (day=" ++
            toString day ++ ", month=" ++ toString month ++ ", year=" ++
            toString year ++ ")"))
      | _, _, _ =>
        .fail (.Parse ("Line " ++ toString line_number ++
          ": invalid component in date '" ++ String.mk date_str ++ "'"))
    else .ok utcNowMillis
  | none => .ok utcNowMillis

/-- `MT940Parser::build_description` (src/mt940_format.rs lines 406-441). -/
def build_description (fields : List (List Char × List Char)) : List Char :=
  let parts :=
    (match mapGet fields (cs "Description") with
      | some remi => [remi]
      | none => []) ++
    (match mapGet fields (cs "Purpose") with
      | some purpose => [cs "Purpose: " ++ purpose]
      | none => []) ++
    (match mapGet fields (cs "CounterpartyName") with
      | some cp => [cs "Counterparty: " ++ cp]
      | none => []) ++
    (match mapGet fields (cs "EREF") with
      | some eref => [cs "Ref: " ++ eref]
      | none => []) ++
    (match mapGet fields (cs "TransactionCode") with
      | some tx_code => if tx_code.isEmpty then [] else [cs "Code: " ++
          tx_code]
      | none => [])
  if parts.isEmpty then cs "MT940 Transaction"
  else (List.intersperse (cs " | ") parts).flatten

/-- `MT940Parser::parse_transaction` (src/mt940_format.rs lines 233-259). -/
def parse_transaction (fields : List (List Char × List Char))
    (line_number : Nat) : Outcome Transaction :=
  if ¬ mapContains fields (cs "AmountRaw") ∧
      ¬ mapContains fields (cs "OriginalAmount") then
    .fail (.Parse ("Line " ++ toString line_number ++
      ": Transaction must have amount field"))
  else
    let tx_id := generate_tx_id fields
    match determine_transfer_type fields with
    | (tx_type, from_user_id, to_user_id) =>
      (parse_amount fields line_number).bind fun amount =>
        (parse_timestamp fields line_number).bind fun timestamp =>
          .ok ⟨tx_id, tx_type, from_user_id, to_user_id, amount, timestamp,
            .Success, build_description fields⟩

/-- The line loop of `MT940Parser::parse_mt940_content`
(src/mt940_format.rs lines 31-81): state is the line count so far, the
accumulator map, and the `has_61_field` flag. Failed `parse_61_field`,
`parse_86_field`, and flush-time `parse_transaction` calls are silently
discarded (`if let Ok`), so the loop itself never reports an error; a
panic inside `parse_transaction` or `parse_61_field` (the date byte
slice) aborts it. -/
def contentLoop : Nat → List (List Char) → List (List Char × List Char) →
    Bool → Outcome (List Transaction)
  | ln, [], current, has61 =>
    if has61 ∧ ¬ current.isEmpty then
      match parse_transaction current ln with
      | .ok t => .ok [t]
      | .fail _ => .ok []
      | .panicked => .panicked
    else .ok []
  | ln, line :: rest, current, has61 =>
    let line_number := ln + 1
    let l := rustTrim line
    if l.isEmpty then contentLoop line_number rest current has61
    else if (tagPrefix l).isSome then
      match fieldCaptures l with
      | some (tag, value) =>
        if tag = cs "20" then
          contentLoop line_number rest
            (mapPut current (cs "Reference") value) false
        else if tag = cs "61" then
          if has61 ∧ ¬ current.isEmpty then
            match parse_transaction current line_number with
            | .panicked => .panicked
            | tr =>
              match parse_61_field value with
              | .panicked => .panicked
              | pr =>
                let cleared := mapPut [] (cs "Reference") []
                let afterParse := match pr with
                  | .ok details => mapExtend cleared details
                  | _ => cleared
                match tr with
                | .ok t =>
                  (contentLoop line_number rest afterParse true).map
                    (fun ts => t :: ts)
                | _ => contentLoop line_number rest afterParse true
          else
            match parse_61_field value with
            | .panicked => .panicked
            | pr =>
              let afterParse := match pr with
                | .ok details => mapExtend current details
                | _ => current
              contentLoop line_number rest afterParse true
        else if tag = cs "86" then
          contentLoop line_number rest
            (mapExtend current (parse_86_field value)) has61
        else contentLoop line_number rest current has61
      | none => contentLoop line_number rest current has61
    else contentLoop line_number rest current has61

/-- `MT940Parser::parse_mt940_content` (src/mt940_format.rs lines 21-91):
every inner `Result` error is swallowed, so it never returns `Err`; it
can still abort by panic through the date byte slice of
`parse_61_field`. -/
def parse_mt940_content (content : List Char) :
    Outcome (List Transaction) :=
  contentLoop 0 (rustLines content) [] false

/-- `MT940Parser::parse_records` (src/mt940_format.rs lines 12-18): the
only failure path of its own is an I/O error from `read_to_string`, which
an in-memory source never produces; `parse_mt940_content`'s result is
passed through. -/
def parse_records (content : List Char) : Outcome (List Transaction) :=
  parse_mt940_content content

end MT940Parser

/-! ## Shared lemmas for the claims -/

/-- Any successfully parsed binary record passed the reader's size check:
the `record_size` header field equals `46 +` the wire `desc_len` field. -/
theorem from_read_ok_size {input : List Nat} {t : Transaction}
    {rest : List Nat}
    (h : BinaryRecord.from_read input = .ok (t, rest)) :
    beVal ((input.drop 4).take 4) = 46 + beVal ((input.drop 50).take 4) := by
  unfold BinaryRecord.from_read at h
  by_cases h4 : input.length < 4
  · rw [if_pos h4] at h
    exact Outcome.noConfusion h
  · rw [if_neg h4] at h
    by_cases hm : input.take 4 ≠ MAGIC
    · rw [if_pos hm] at h
      exact Outcome.noConfusion h
    · rw [if_neg hm] at h
      by_cases h8 : input.length < 8
      · rw [if_pos h8] at h
        exact Outcome.noConfusion h
      · rw [if_neg h8] at h
        by_cases h16 : input.length < 16
        · rw [if_pos h16] at h
          exact Outcome.noConfusion h
        · rw [if_neg h16] at h
          by_cases h17 : input.length < 17
          · rw [if_pos h17] at h
            exact Outcome.noConfusion h
          · rw [if_neg h17] at h
            rcases htx : txTypeOfByte (byteAt input 16) with _ | ty
            · simp only [htx] at h
              exact Outcome.noConfusion h
            · simp only [htx] at h
              by_cases h25 : input.length < 25
              · rw [if_pos h25] at h
                exact Outcome.noConfusion h
              · rw [if_neg h25] at h
                by_cases h33 : input.length < 33
                · rw [if_pos h33] at h
                  exact Outcome.noConfusion h
                · rw [if_neg h33] at h
                  by_cases h41 : input.length < 41
                  · rw [if_pos h41] at h
                    exact Outcome.noConfusion h
                  · rw [if_neg h41] at h
                    by_cases h49 : input.length < 49
                    · rw [if_pos h49] at h
                      exact Outcome.noConfusion h
                    · rw [if_neg h49] at h
                      by_cases h50 : input.length < 50
                      · rw [if_pos h50] at h
                        exact Outcome.noConfusion h
                      · rw [if_neg h50] at h
                        rcases hst : statusOfByte (byteAt input 49) with _ | st
                        · simp only [hst] at h
                          exact Outcome.noConfusion h
                        · simp only [hst] at h
                          by_cases h54 : input.length < 54
                          · rw [if_pos h54] at h
                            exact Outcome.noConfusion h
                          · rw [if_neg h54] at h
                            by_cases hmis : beVal ((input.drop 4).take 4) ≠ 46 + beVal ((input.drop 50).take 4)
                            · rw [if_pos hmis] at h
                              exact Outcome.noConfusion h
                            · exact not_not.mp hmis

/-- A `:61:` value of at least 10 bytes whose trimmed text has a
character boundary at byte 6 (so the source's date slice does not panic)
and no `D`/`C` at or after character index 6 makes `parse_61_field` fail
with the no-marker message. -/
theorem parse_61_field_no_marker (value : List Char)
    (h10 : ¬ utf8Len (rustTrim value) < 10)
    (hb : MT940Parser.takeBytes 6 (rustTrim value) ≠ none)
    (hfind : ((rustTrim value).enum.find? (fun p =>
      6 ≤ p.1 ∧ (p.2 = 'D' ∨ p.2 = 'C'))) = none) :
    MT940Parser.parse_61_field value = .fail (.Parse
      ("No D/C marker found in :61: field: '" ++
        String.mk (rustTrim value) ++ "'")) := by
  unfold MT940Parser.parse_61_field
  dsimp only
  rw [if_neg h10]
  rcases htb : MT940Parser.takeBytes 6 (rustTrim value) with _ | ds
  · exact absurd htb hb
  · dsimp only
    rw [hfind]
    rfl

/-! ## Example transactions for the claims -/

def exOk : Transaction := ⟨1, .Deposit, 0, 1, 5, 0, .Success, cs "ok"⟩

def exNl : Transaction := ⟨1, .Deposit, 0, 1, 5, 0, .Success, cs "a\nb"⟩

def exQuote : Transaction := ⟨1, .Deposit, 0, 1, 5, 0, .Success, cs "\""⟩

def exViol : Transaction := ⟨1, .Deposit, 5, 1, -7, 0, .Success, cs "ok"⟩

def exPad : Transaction := ⟨1, .Deposit, 0, 1, 5, 0, .Success, cs " a"⟩

def exPadTrim : Transaction := ⟨1, .Deposit, 0, 1, 5, 0, .Success, cs "a"⟩

def exQC : Transaction := ⟨1, .Deposit, 0, 1, 5, 0, .Success, cs "a\",b"⟩

def exQCNl : Transaction :=
  ⟨1, .Deposit, 0, 1, 5, 0, .Success, cs "a\",\nb"⟩

/-! ## The claims -/

/-- C1 (corrected): writing then re-parsing a transaction list with the
Binary, CSV, or Text codec reproduces the list, for lists respecting the
business rules and each format's invariants — amended with the
description-shape conditions the counterexample forces: descriptions embed
no newline, are fixed points of the CSV reader's extra unescaping pass,
and (for Binary) are fixed points of `normalize_description` and within
the 1 MiB cap. -/
theorem C1_roundtrip (ts : List Transaction)
    (hwf : ∀ t ∈ ts, t.wf) (hbiz : ∀ t ∈ ts, businessOk t)
    (hnl : ∀ t ∈ ts, '\n' ∉ t.description)
    (hfix : ∀ t ∈ ts,
      CsvParser.unescape_description t.description = some t.description)
    (hcap : ∀ t ∈ ts, utf8Len t.description ≤ MAX_DESC_LEN)
    (hnorm : ∀ t ∈ ts,
      BinaryRecord.normalize_description t.description =
        some t.description) :
    (∃ w, BinaryParser.write_records ts = .ok w ∧
      BinaryParser.parse_records w = .ok ts) ∧
    CsvParser.parse_records (CsvParser.write_records ts) = .ok ts ∧
    TextParser.parse_records (TextParser.write_records ts) = .ok ts :=
  ⟨binary_roundtrip ts hwf hcap hnorm,
    CsvParser.csv_roundtrip ts hwf hbiz hnl hfix,
    TextParser.txt_roundtrip ts hwf hbiz hnl⟩

theorem C1_roundtrip_counterexample :
    (∀ t ∈ [exNl], t.wf) ∧ (∀ t ∈ [exNl], businessOk t) ∧
    (∀ t ∈ [exNl], utf8Len t.description ≤ MAX_DESC_LEN) ∧
    CsvParser.parse_records (CsvParser.write_records [exNl]) ≠
      .ok [exNl] := by decide

theorem C1_roundtrip_witness :
    (∀ t ∈ [exOk], t.wf) ∧ (∀ t ∈ [exOk], businessOk t) ∧
    (∀ t ∈ [exOk], '\n' ∉ t.description) ∧
    (∀ t ∈ [exOk],
      CsvParser.unescape_description t.description = some t.description) ∧
    (∀ t ∈ [exOk], utf8Len t.description ≤ MAX_DESC_LEN) ∧
    (∀ t ∈ [exOk],
      BinaryRecord.normalize_description t.description =
        some t.description) ∧
    ((∃ w, BinaryParser.write_records [exOk] = .ok w ∧
        BinaryParser.parse_records w = .ok [exOk]) ∧
      CsvParser.parse_records (CsvParser.write_records [exOk]) =
        .ok [exOk] ∧
      TextParser.parse_records (TextParser.write_records [exOk]) =
        .ok [exOk]) :=
  ⟨by decide, by decide, by decide, by decide, by decide, by decide,
    C1_roundtrip [exOk] (by decide) (by decide) (by decide) (by decide)
      (by decide) (by decide)⟩

/-- C2 (corrected): the binary reader's loop breaks out successfully on
`UnexpectedEof` wherever `from_read` reports it — at a record boundary but
also in the middle of a record — and only a non-EOF failure is fatal; the
claim's "any error mid-record is fatal" is amended accordingly. -/
theorem C2_eof_handling (input : List Nat) (e : ParserError)
    (h : BinaryRecord.from_read input = .fail e) :
    BinaryParser.parse_records input =
      (if e = .Io .unexpectedEof then .ok [] else .fail e) :=
  parse_records_of_from_read_fail h

theorem C2_eof_handling_counterexample :
    BinaryParser.parse_records ((binBytes exOk).take 10) = .ok [] ∧
    BinaryParser.parse_records (binBytes exOk ++ (binBytes exOk).take 10) =
      .ok [exOk] := by decide

theorem C2_eof_handling_witness :
    BinaryParser.parse_records ((binBytes exOk).take 10) =
      (if ParserError.Io .unexpectedEof = .Io .unexpectedEof then .ok []
        else .fail (.Io .unexpectedEof)) :=
  C2_eof_handling ((binBytes exOk).take 10) (.Io .unexpectedEof)
    (by decide)

/-- C3 (code bug): both slice-based description unescapers panic on a
field whose trimmed content is the single character `"`: the CSV reader
panics on a well-formed CSV file whose description field is the escaped
lone quote, and the binary reader panics on the bytes the binary writer
itself produces for a lone-quote description. -/
theorem C3_panic :
    CsvParser.parse_records (cs
      "TX_ID,TX_TYPE,FROM_USER_ID,TO_USER_ID,AMOUNT,TIMESTAMP,STATUS,DESCRIPTION\n1,DEPOSIT,0,1,5,0,SUCCESS,\"\"\"\"")
      = .panicked ∧
    BinaryRecord.normalize_description (cs "\"") = none ∧
    BinaryParser.parse_records (binBytes exQuote) = .panicked := by decide

/-- C4 (confirmed): the CSV and Text readers both reject every §3
business-rule violation with a parse error (serialized AMOUNT ≤ 0 — CSV
in `validate_record` with the "must be positive in CSV format" message,
Text in `parse_i64_field` with its "must be positive" message — Deposit
with sender, Withdrawal with recipient, Transfer with a zero endpoint),
while the binary reader accepts any well-framed record unchanged,
business rules notwithstanding. -/
theorem C4_validation :
    (∀ (ty : TransactionType) (fr tu : Nat) (amount : Int) (n : Nat),
      amount ≤ 0 → CsvParser.validate_record ty fr tu amount n =
        .fail (.Parse ("Line " ++ toString n ++
          ": AMOUNT must be positive in CSV format, got " ++
          toString amount))) ∧
    (∀ (fr tu : Nat) (amount : Int) (n : Nat), 0 < amount → fr ≠ 0 →
      CsvParser.validate_record .Deposit fr tu amount n =
        .fail (.Parse ("Line " ++ toString n ++
          ": DEPOSIT must have FROM_USER_ID = 0, got " ++ toString fr))) ∧
    (∀ (fr tu : Nat) (amount : Int) (n : Nat), 0 < amount → tu ≠ 0 →
      CsvParser.validate_record .Withdrawal fr tu amount n =
        .fail (.Parse ("Line " ++ toString n ++
          ": WITHDRAWAL must have TO_USER_ID = 0, got " ++
          toString tu))) ∧
    (∀ (tu : Nat) (amount : Int) (n : Nat), 0 < amount →
      CsvParser.validate_record .Transfer 0 tu amount n =
        .fail (.Parse ("Line " ++ toString n ++
          ": TRANSFER cannot have FROM_USER_ID = 0"))) ∧
    (∀ (fr : Nat) (amount : Int) (n : Nat), 0 < amount → fr ≠ 0 →
      CsvParser.validate_record .Transfer fr 0 amount n =
        .fail (.Parse ("Line " ++ toString n ++
          ": TRANSFER cannot have TO_USER_ID = 0"))) ∧
    (∀ (fr tu n : Nat), fr ≠ 0 →
      TextParser.validate_record .Deposit fr tu n =
        .fail (.Parse ("Line " ++ toString n ++
          ": DEPOSIT must have FROM_USER_ID = 0, got " ++ toString fr))) ∧
    (∀ (fr tu n : Nat), tu ≠ 0 →
      TextParser.validate_record .Withdrawal fr tu n =
        .fail (.Parse ("Line " ++ toString n ++
          ": WITHDRAWAL must have TO_USER_ID = 0, got " ++
          toString tu))) ∧
    (∀ (tu n : Nat), TextParser.validate_record .Transfer 0 tu n =
      .fail (.Parse ("Line " ++ toString n ++
        ": TRANSFER cannot have FROM_USER_ID = 0"))) ∧
    (∀ (fr n : Nat), fr ≠ 0 →
      TextParser.validate_record .Transfer fr 0 n =
        .fail (.Parse ("Line " ++ toString n ++
          ": TRANSFER cannot have TO_USER_ID = 0"))) ∧
    (∀ (fields : List (List Char × List Char)) (ln : Nat) (a : Int),
      -(2 ^ 63) ≤ a → a < 2 ^ 63 → a ≤ 0 →
      mapGet fields (cs "AMOUNT") = some (intToChars a) →
      TextParser.parse_i64_field fields (cs "AMOUNT") ln =
        .fail (.Parse ("Line " ++ toString ln ++ ": " ++
          String.mk (cs "AMOUNT") ++ " must be positive, got " ++
          toString a))) ∧
    (∀ (t : Transaction) (rest : List Nat), t.wf →
      utf8Len t.description ≤ MAX_DESC_LEN →
      BinaryRecord.normalize_description t.description =
        some t.description →
      BinaryRecord.from_read (binBytes t ++ rest) = .ok (t, rest)) := by
  refine ⟨?_, ?_, ?_, ?_, ?_, ?_, ?_, ?_, ?_, ?_, ?_⟩
  · intro ty fr tu amount n h
    unfold CsvParser.validate_record
    rw [if_pos h]
  · intro fr tu amount n hamt hfr
    unfold CsvParser.validate_record
    rw [if_neg (by omega)]
    simp [hfr]
  · intro fr tu amount n hamt htu
    unfold CsvParser.validate_record
    rw [if_neg (by omega)]
    simp [htu]
  · intro tu amount n hamt
    unfold CsvParser.validate_record
    rw [if_neg (by omega)]
    simp
  · intro fr amount n hamt hfr
    unfold CsvParser.validate_record
    rw [if_neg (by omega)]
    simp [hfr]
  · intro fr tu n hfr
    unfold TextParser.validate_record
    simp [hfr]
  · intro fr tu n htu
    unfold TextParser.validate_record
    simp [htu]
  · intro tu n
    unfold TextParser.validate_record
    simp
  · intro fr n hfr
    unfold TextParser.validate_record
    simp [hfr]
  · intro fields ln a hlo hhi hle hget
    unfold TextParser.parse_i64_field
    rw [hget]
    dsimp only
    rw [TextParser.txtTakeWhile_eq_self (intToChars a) (fun x hx => by
      rcases TextParser.intToChars_mem hx with rfl | hdig
      · decide
      · simp only [decide_eq_true_eq]
        exact (isAsciiDigit_ne_nl hdig).2.2.2)]
    rw [TextParser.rustTrim_intToChars, parseI64_intToChars hlo hhi]
    dsimp only
    rw [if_pos hle]
  · exact fun t rest hwf hcap hnorm =>
      from_read_binBytes t rest hwf hcap hnorm

theorem C4_validation_witness :
    CsvParser.validate_record .Deposit 5 1 (-7) 1 =
      .fail (.Parse ("Line " ++ toString (1 : Nat) ++
        ": AMOUNT must be positive in CSV format, got " ++
        toString (-7 : Int))) ∧
    TextParser.parse_i64_field [(cs "AMOUNT", intToChars (-7))]
      (cs "AMOUNT") 1 = .fail (.Parse ("Line " ++ toString (1 : Nat) ++
        ": " ++ String.mk (cs "AMOUNT") ++ " must be positive, got " ++
        toString (-7 : Int))) ∧
    BinaryRecord.from_read (binBytes exViol ++ []) = .ok (exViol, []) :=
  ⟨C4_validation.1 .Deposit 5 1 (-7) 1 (by decide),
    C4_validation.2.2.2.2.2.2.2.2.2.1 [(cs "AMOUNT", intToChars (-7))] 1
      (-7) (by decide) (by decide) (by decide) (by decide),
    C4_validation.2.2.2.2.2.2.2.2.2.2 exViol [] (by decide) (by decide)
      (by decide)⟩

/-- C5 (corrected): a `:61:` value (with a character boundary at byte 6,
so the source's date slice does not panic) with no `D`/`C` marker at or
after position 6 does make `parse_61_field` return an error, but
`parse_mt940_content` discards that error through its `if let Ok`
pattern, so `parse_records` returns `Ok` (with the malformed line's record
dropped) rather than failing — the claim's "fatal" is amended to
"swallowed". -/
theorem C5_marker_swallowed :
    (∀ value : List Char, ¬ utf8Len (rustTrim value) < 10 →
      MT940Parser.takeBytes 6 (rustTrim value) ≠ none →
      ((rustTrim value).enum.find? (fun p =>
        6 ≤ p.1 ∧ (p.2 = 'D' ∨ p.2 = 'C'))) = none →
      MT940Parser.parse_61_field value = .fail (.Parse
        ("No D/C marker found in :61: field: '" ++
          String.mk (rustTrim value) ++ "'"))) ∧
    MT940Parser.parse_records (cs ":61:230420T12,01NTRF//REF1") =
      .ok [] :=
  ⟨parse_61_field_no_marker, by decide⟩

theorem C5_marker_counterexample :
    MT940Parser.parse_61_field (cs "230420T12,01NTRF//REF1") =
      .fail (.Parse ("No D/C marker found in :61: field: '" ++
        String.mk (cs "230420T12,01NTRF//REF1") ++ "'")) ∧
    MT940Parser.parse_records (cs ":61:230420T12,01NTRF//REF1") =
      .ok [] := by decide

theorem C5_marker_witness :
    MT940Parser.parse_61_field (cs " 230420T12,01NTRF//REF1 ") =
      .fail (.Parse ("No D/C marker found in :61: field: '" ++
        String.mk (rustTrim (cs " 230420T12,01NTRF//REF1 ")) ++ "'")) :=
  C5_marker_swallowed.1 (cs " 230420T12,01NTRF//REF1 ") (by decide)
    (by decide) (by decide)

/-- C6 (corrected): for every successfully parsed binary record the
`record_size` header equals `46 +` the wire `desc_len` field — the byte
length of the raw description as stored — but not in general `46 +` the
byte length of the returned record's description, which
`normalize_description` may shrink. -/
theorem C6_size_header (input : List Nat) (t : Transaction)
    (rest : List Nat)
    (h : BinaryRecord.from_read input = .ok (t, rest)) :
    beVal ((input.drop 4).take 4) =
      46 + beVal ((input.drop 50).take 4) :=
  from_read_ok_size h

theorem C6_size_header_counterexample :
    BinaryRecord.from_read (binBytes exPad) = .ok (exPadTrim, []) ∧
    beVal (((binBytes exPad).drop 4).take 4) = 48 ∧
    utf8Len exPadTrim.description = 1 ∧ 48 ≠ 46 + 1 := by decide

theorem C6_size_header_witness :
    beVal (((binBytes exPad).drop 4).take 4) =
      46 + beVal (((binBytes exPad).drop 50).take 4) :=
  C6_size_header (binBytes exPad) exPadTrim [] (by decide)

/-- C7 (corrected): a description containing a double quote and a comma
survives the CSV round trip exactly, provided — as the counterexample
forces — it embeds no newline and is a fixed point of the reader's second
unescaping pass; with an embedded newline the round trip fails. -/
theorem C7_quote_safety (t : Transaction) (hwf : t.wf)
    (hbiz : businessOk t) (_hq : '"' ∈ t.description)
    (_hcomma : ',' ∈ t.description) (hnl : '\n' ∉ t.description)
    (hfix : CsvParser.unescape_description t.description =
      some t.description) :
    CsvParser.parse_records (CsvParser.write_records [t]) = .ok [t] :=
  CsvParser.csv_roundtrip [t]
    (fun x hx => by rw [List.mem_singleton.mp hx]; exact hwf)
    (fun x hx => by rw [List.mem_singleton.mp hx]; exact hbiz)
    (fun x hx => by rw [List.mem_singleton.mp hx]; exact hnl)
    (fun x hx => by rw [List.mem_singleton.mp hx]; exact hfix)

theorem C7_quote_safety_counterexample :
    Transaction.wf exQCNl ∧ businessOk exQCNl ∧
    '"' ∈ exQCNl.description ∧ ',' ∈ exQCNl.description ∧
    '\n' ∈ exQCNl.description ∧
    CsvParser.parse_records (CsvParser.write_records [exQCNl]) ≠
      .ok [exQCNl] := by decide

theorem C7_quote_safety_witness :
    Transaction.wf exQC ∧ businessOk exQC ∧ '"' ∈ exQC.description ∧
    ',' ∈ exQC.description ∧ '\n' ∉ exQC.description ∧
    CsvParser.unescape_description exQC.description =
      some exQC.description ∧
    CsvParser.parse_records (CsvParser.write_records [exQC]) =
      .ok [exQC] :=
  ⟨by decide, by decide, by decide, by decide, by decide, by decide,
    C7_quote_safety exQC (by decide) (by decide) (by decide) (by decide)
      (by decide) (by decide)⟩

/-- C8 (confirmed): the MT940 line `:61:230420D12,01NTRF//REF1` parses to
amount `-1201` with a non-Deposit type (a Transfer), and the `C`-marker
variant parses to amount `1201` with type Deposit. -/
theorem C8_dc_sign :
    (MT940Parser.parse_records (cs ":61:230420D12,01NTRF//REF1")).map
      (List.map fun t => (t.amount, t.tx_type)) =
        .ok [(-1201, .Transfer)] ∧
    TransactionType.Transfer ≠ .Deposit ∧
    (MT940Parser.parse_records (cs ":61:230420C12,01NTRF//REF1")).map
      (List.map fun t => (t.amount, t.tx_type)) =
        .ok [(1201, .Deposit)] := by decide

/-- C9 (confirmed): CSV parsing of completely empty input yields `Ok []`:
the empty text splits into zero lines, so the header check is never
reached and no error is raised. -/
theorem C9_empty_input :
    CsvParser.parse_records [] = .ok [] ∧ rustLines [] = [] := by decide

/-- C10 (confirmed): the Text codec uppercases `TX_TYPE` and `STATUS`
before matching, accepting `deposit` and `Success`, while the CSV codec
accepts only the exact uppercase tokens and rejects those same
spellings. -/
theorem C10_case_insensitive :
    TextParser.parse_tx_type [(cs "TX_TYPE", cs "deposit")] 1 =
      .ok .Deposit ∧
    TextParser.parse_status [(cs "STATUS", cs "Success")] 1 =
      .ok .Success ∧
    CsvParser.parse_record [cs "1", cs "deposit", cs "0", cs "1", cs "5",
      cs "0", cs "SUCCESS", cs "ok"] 1 = .fail (.Parse
        "Line 1: Invalid TX_TYPE 'deposit', must be DEPOSIT, TRANSFER, or WITHDRAWAL") ∧
    CsvParser.parse_record [cs "1", cs "DEPOSIT", cs "0", cs "1", cs "5",
      cs "0", cs "Success", cs "ok"] 1 = .fail (.Parse
        "Line 1: Invalid STATUS 'Success', must be SUCCESS, FAILURE, or PENDING") ∧
    CsvParser.parse_record [cs "1", cs "DEPOSIT", cs "0", cs "1", cs "5",
      cs "0", cs "SUCCESS", cs "ok"] 1 =
      .ok ⟨1, .Deposit, 0, 1, 5, 0, .Success, cs "ok"⟩ := by decide

end RPA
